import Mathlib

/-!
# Verification of the costpuller Cost Aggregation & Reconciliation Engine

Shallow embedding of the core of the `costpuller` program: the account
directory (`getAccountMetadata`), the source-adapter ingestion passes
(`getSheetDataFromCloudability`, `getSheetDataFromIbmcloud`,
`skipAccountEntry`), the consistency checker (`CheckResponseConsistency`,
the AWS/cost-management cross-check in `main`), the sheet row materializer
(`getSheetFromCostCells`, `sortOutput`, `getTotalsFormula`, `colNumToRef`),
and the spreadsheet sync anchor search (`getNewSheetReference`).

Go maps are embedded as association lists; where the program iterates over a
map, the list order stands for the (unspecified) iteration order, so theorems
quantifying over that order capture Go's unordered-map semantics.  Go
`float64` amounts are embedded as `ℚ` (no claim under scrutiny depends on
binary rounding of the amounts themselves; `math.Round` is embedded
explicitly).  Mutation is embedded as explicit state passing and
`log.Fatalf` as `Except.error`.
-/

namespace Costpuller

/-! ## Association-list helpers (embedding of Go map read/write) -/

/-- Go map read: first binding for `k`, if any. -/
def alGet {β : Type} (l : List (String × β)) (k : String) : Option β :=
  match l.find? (fun p => p.1 == k) with
  | some p => some p.2
  | none => none

/-- Go map read with the zero value as default (`m[k]` on a missing key). -/
def alGetD {β : Type} (l : List (String × β)) (k : String) (d : β) : β :=
  (alGet l k).getD d

/-- Go map write `m[k] = v`: replace the binding if present, else append. -/
def alSet {β : Type} (l : List (String × β)) (k : String) (v : β) :
    List (String × β) :=
  match l with
  | [] => [(k, v)]
  | (k', v') :: t => if k' == k then (k, v) :: t else (k', v') :: alSet t k v

/-! ## Data model -/

/-- `AccountMetadata` from the accounts YAML file (inverted index entry). -/
structure AccountMetadata where
  AccountId : String
  Category : String
  CloudProvider : String
  DataFound : Bool
  Description : String
  Group : String
deriving DecidableEq, Repr

/-- `providerAccountMetadata`: per-account display fields captured from the
first cost record seen for the account. -/
structure ProviderAccountMetadata where
  AccountName : String
  CloudProvider : String
  CostCenter : String
  Date : String
  PayerAccountId : String
deriving DecidableEq, Repr

/-- A sheet cell (`sheets.CellData`): the `UserEnteredValue` is a string, a
number, or a formula; `nil` cells (the TOTAL column before it is filled in
after sorting) are `empty`.  Formatting-only fields are not modelled. -/
inductive CellData where
  | str (s : String)
  | num (v : ℚ)
  | formula (f : String)
  | empty
deriving DecidableEq, Repr

/-- The string payload of a cell, as read by `sortOutput` via
`*cell.UserEnteredValue.StringValue` (only ever applied to string cells). -/
def CellData.strVal : CellData → String
  | .str s => s
  | _ => ""

/-- The numeric payload of a cell, zero for non-numeric cells. -/
def CellData.numVal : CellData → ℚ
  | .num v => v
  | _ => 0

/-! ## Sheet Row Materializer (`part_007`) -/

/-- `colNumToRef`: zero-based column ordinal to letter reference
(0 ↦ "A", 25 ↦ "Z", 26 ↦ "AA", 676 ↦ "AAA"). -/
def colNumToRef (n : Nat) : String :=
  let d := n / 26
  let r := n % 26
  (if _h : d > 0 then colNumToRef (d - 1) else "") ++
    String.singleton (Char.ofNat ('A'.toNat + r))
decreasing_by
  have hd : n / 26 ≤ n := Nat.div_le_self n 26
  omega

/-- `getTotalsFormula`: `=SUM(<c1><row+1>:<c2><row+1>)`, both endpoints on the
same (zero-based) `row`, columns `startCol` to `endCol` (zero-based). -/
def getTotalsFormula (row startCol endCol : Nat) : String :=
  "=SUM(" ++ colNumToRef startCol ++ toString (row + 1) ++ ":" ++
    colNumToRef endCol ++ toString (row + 1) ++ ")"

/-- `sortedKeys`: the keys of a map, sorted (`sort.Strings`).  The argument
list is the map's key set in iteration order. -/
def sortedKeys (keys : List String) : List String :=
  List.insertionSort (· ≤ ·) keys

/-- The fixed metadata column prefix of `columnHeadsList`. -/
def fixedColumnHeads : List String :=
  ["Team", "Date", "Cloud Provider", "Payer ID", "Cost Center",
   "Account Name", "Account ID", "TOTAL"]

/-- One cell of an account's data row: the `switch` on the column header in
`getSheetFromCostCells`.  `am`/`md` embed the `accountsMetadata` and
`metadata` map lookups as total functions. -/
def cellForKey (accountId : String) (dataRow : List (String × ℚ))
    (am : String → AccountMetadata) (md : String → ProviderAccountMetadata)
    (key : String) : CellData :=
  if key = "TOTAL" then .empty
  else if key = "Team" then .str (am accountId).Group
  else if key = "Date" then .str (md accountId).Date
  else if key = "Cloud Provider" then .str (am accountId).CloudProvider
  else if key = "Cost Center" then .str (md accountId).CostCenter
  else if key = "Payer ID" then .str (md accountId).PayerAccountId
  else if key = "Account ID" then .str (am accountId).AccountId
  else if key = "Account Name" then .str (md accountId).AccountName
  else .num (alGetD dataRow key 0)

/-- The unsorted data rows (`for accountId, dataRow := range costCells`): the
association list order is the map iteration order. -/
def buildDataRows (costCells : List (String × List (String × ℚ)))
    (columnHeadsList : List String) (am : String → AccountMetadata)
    (md : String → ProviderAccountMetadata) : List (List CellData) :=
  costCells.map (fun p => columnHeadsList.map (cellForKey p.1 p.2 am md))

/-- `sortOutput`: stable sort of the data rows by the string value of the cell
in the given column (`slices.SortStableFunc` with `cmp.Compare`). -/
def sortOutput (output : List (List CellData)) (columnIndex : Nat) :
    List (List CellData) :=
  List.insertionSort
    (fun a b => (a.getD columnIndex .empty).strVal ≤
      (b.getD columnIndex .empty).strVal) output

/-- Post-sort totals pass: overwrite the `TOTAL` column (index `tc`) of the
`idx`-th data row with `getTotalsFormula (idx+1) fixed lastCol`. -/
def setTotals (tc fixed lastCol : Nat) (rows : List (List CellData)) :
    List (List CellData) :=
  rows.mapIdx (fun idx row =>
    row.set tc (.formula (getTotalsFormula (idx + 1) fixed lastCol)))

/-- `getSheetFromCostCells`: header row, then one row per account, sorted by
Account ID, then Cloud Provider, then Team (three stable passes), and finally
the TOTAL formulas assigned relative to the sorted positions. -/
def getSheetFromCostCells (costCells : List (String × List (String × ℚ)))
    (columnHeadsSet : List String) (am : String → AccountMetadata)
    (md : String → ProviderAccountMetadata) : List (List CellData) :=
  let columnHeadsList := fixedColumnHeads ++ sortedKeys columnHeadsSet
  let fixed := fixedColumnHeads.length
  let headerRow := columnHeadsList.map CellData.str
  let dataRows := buildDataRows costCells columnHeadsList am md
  let sorted :=
    sortOutput
      (sortOutput
        (sortOutput dataRows (columnHeadsList.findIdx (· == "Account ID")))
        (columnHeadsList.findIdx (· == "Cloud Provider")))
      (columnHeadsList.findIdx (· == "Team"))
  let tc := columnHeadsList.findIdx (· == "TOTAL")
  headerRow :: setTotals tc fixed (columnHeadsList.length - 1) sorted

/-! ## Cost Grid Builder: ingestion state and `skipAccountEntry` (`part_006`) -/

/-- The mutable state threaded through an ingestion pass: the
`accountsMetadata` pointer map, the sparse cost grid `costCells`, the
`columnHeadsSet` key set, the per-account `metadata` map, the per-pass
`ignored` dedupe set, and the log lines emitted so far. -/
structure IngestState where
  accountsMetadata : List (String × AccountMetadata)
  costCells : List (String × List (String × ℚ))
  columnHeads : List String
  metadata : List (String × ProviderAccountMetadata)
  ignored : List String
  logs : List String
deriving DecidableEq, Repr

/-- The "not tracked" warning for an account absent from the accounts file. -/
def notTrackedMsg (dataSource costCenter providerConfigName accountId
    accountName : String) : String :=
  "Warning:  found account which is not in the accounts file:  " ++
    dataSource ++ ":" ++ costCenter ++ ":" ++ providerConfigName ++ ":" ++
    accountId ++ " (" ++ accountName ++ "); ignoring"

/-- The provider-label correction warning. -/
def wrongProviderMsg (accountId oldProvider newProvider : String) : String :=
  "For account " ++ accountId ++ ", the accounts file has cloud provider " ++
    oldProvider ++ ", but it should be " ++ newProvider ++ "; using " ++
    newProvider

/-- Result of `skipAccountEntry`: the returned `bool`, the updated `ignored`
set, the updated metadata entry to store back through the pointer (`none`
when the account is untracked), and the log lines emitted. -/
structure SkipResult where
  skip : Bool
  ignored : List String
  meta : Option AccountMetadata
  logs : List String
deriving DecidableEq, Repr

/-- `skipAccountEntry`: drop records whose account is not in the accounts
file, warning once per account and only when the record is attributed to the
configured cost center (`ourCostCenter` embeds
`getMapKeyString(configMap, "cost_center", "")`); for tracked accounts,
correct a provider-label mismatch (warning) and set `DataFound`. -/
def skipAccountEntry (accountMetadata : Option AccountMetadata)
    (accountId costCenter providerConfigName accountName : String)
    (ignored : List String) (ourCostCenter dataSource : String) : SkipResult :=
  match accountMetadata with
  | none =>
    if accountId ∈ ignored then ⟨true, ignored, none, []⟩
    else
      ⟨true, ignored ++ [accountId], none,
        if costCenter = ourCostCenter then
          [notTrackedMsg dataSource costCenter providerConfigName accountId
            accountName]
        else []⟩
  | some m =>
    if m.CloudProvider ≠ providerConfigName ∧
        ¬(providerConfigName = "Amazon" ∧ m.CloudProvider = "AWS") then
      ⟨false, ignored,
        some { m with CloudProvider := providerConfigName, DataFound := true },
        [wrongProviderMsg accountId m.CloudProvider providerConfigName]⟩
    else
      ⟨false, ignored, some { m with DataFound := true }, []⟩

/-! ## Primary bulk adapter ingestion (`cloudability.go`) -/

/-- One Cloudability results entry.  The `Cost` JSON string has already been
parsed to a number (`strconv.ParseFloat`, whose failure path no claim
touches, is out of scope). -/
structure ResultsEntry where
  AccountID : String
  AccountName : String
  CloudProvider : String
  CostCenter : String
  PayerAccountId : String
  UsageFamily : String
  Cost : ℚ
deriving DecidableEq, Repr

/-- The fatal duplicate-cell message of the Cloudability pass (numeric
formatting abstracted). -/
def dupEntryMsg (acct fam : String) (oldVal newVal : ℚ) : String :=
  "Duplicate entry for " ++ acct ++ ":" ++ fam ++ ", values " ++
    toString oldVal ++ " and " ++ toString newVal

/-- Apply the side effects of `skipAccountEntry` to the pass state: the
updated `ignored` set, the emitted log lines, and the store-back through the
`accountsMetadata` pointer. -/
def applySkipResult (st : IngestState) (accountId : String)
    (sr : SkipResult) : IngestState :=
  { st with
    ignored := sr.ignored
    logs := st.logs ++ sr.logs
    accountsMetadata :=
      match sr.meta with
      | some m => alSet st.accountsMetadata accountId m
      | none => st.accountsMetadata }

/-- The non-skipped remainder of the `getSheetDataFromCloudability` loop
body: note the usage family as a column head, capture the account metadata
on first sight, create the account's row if absent, and write the cell —
fatally erroring if the cell is already written. -/
def cldyIngest (dateStr : String) (st : IngestState) (entry : ResultsEntry) :
    Except String IngestState :=
  let st := { st with
    columnHeads :=
      if entry.UsageFamily ∈ st.columnHeads then st.columnHeads
      else st.columnHeads ++ [entry.UsageFamily]
    metadata :=
      match alGet st.metadata entry.AccountID with
      | some _ => st.metadata
      | none => alSet st.metadata entry.AccountID
          ⟨entry.AccountName, entry.CloudProvider, entry.CostCenter,
            dateStr, entry.PayerAccountId⟩ }
  let cc :=
    if (alGet st.costCells entry.AccountID).isNone then
      alSet st.costCells entry.AccountID []
    else st.costCells
  let row := alGetD cc entry.AccountID []
  match alGet row entry.UsageFamily with
  | some oldVal =>
    .error (dupEntryMsg entry.AccountID entry.UsageFamily oldVal entry.Cost)
  | none =>
    .ok { st with
      costCells := alSet cc entry.AccountID
        (alSet row entry.UsageFamily entry.Cost) }

/-- One iteration of the `getSheetDataFromCloudability` loop. -/
def cldyStep (ourCostCenter dateStr : String) (st : IngestState)
    (entry : ResultsEntry) : Except String IngestState :=
  let sr := skipAccountEntry (alGet st.accountsMetadata entry.AccountID)
    entry.AccountID entry.CostCenter entry.CloudProvider entry.AccountName
    st.ignored ourCostCenter "Cloudability"
  let st := applySkipResult st entry.AccountID sr
  if sr.skip then .ok st else cldyIngest dateStr st entry

/-- `getSheetDataFromCloudability`: fold the entries through `cldyStep`; the
warning-dedupe set `ignored` is local to the pass. -/
def getSheetDataFromCloudability (entries : List ResultsEntry)
    (ourCostCenter dateStr : String) (st0 : IngestState) :
    Except String IngestState :=
  entries.foldlM (cldyStep ourCostCenter dateStr) { st0 with ignored := [] }

/-! ## Augmenting resource-level adapter ingestion (`part_000`) -/

/-- One resource line of an IBM Cloud account summary. -/
structure IbmcResource where
  ResourceName : String
  BillableCost : ℚ
deriving DecidableEq, Repr

/-- One IBM Cloud results entry (`IbmcResultsEntry` restricted to the fields
`getSheetDataFromIbmcloud` reads). -/
structure IbmcResultsEntry where
  AccountID : String
  AccountName : String
  CloudProvider : String
  CostCenter : String
  PayerAccountId : String
  Month : String
  Resources : List IbmcResource
deriving DecidableEq, Repr

/-- The resource-name → Cloudability usage-family bucket table of
`getSheetDataFromIbmcloud` (unknown names fall into `"Other"` with a log
line, not modelled). -/
def bucketOf (resourceName : String) : String :=
  match resourceName with
  | "Block Storage for VPC" | "Cloud Object Storage" => "Storage"
  | "Cloud Activity Tracker" | "Cloud Monitoring" => "Notifications"
  | "Continuous Delivery" | "Log Analysis" => "Other"
  | "Floating IP for VPC" => "IP Address"
  | "Kubernetes Service" => "Instance Usage"
  | "Load Balancer for VPC" => "Load Balancer"
  | "Virtual Private Cloud" => "VPN"
  | "Virtual Private Endpoint for VPC" | "Virtual Server for VPC" =>
    "VPC Endpoint"
  | _ => "Other"

/-- `costCells[accountId][bucket] += resource.BillableCost` for one
resource. -/
def addResource (row : List (String × ℚ)) (r : IbmcResource) :
    List (String × ℚ) :=
  alSet row (bucketOf r.ResourceName)
    (alGetD row (bucketOf r.ResourceName) 0 + r.BillableCost)

/-- The fatal message when an IBM Cloud account already has a cost row. -/
def rowExistsMsg (acct : String) : String :=
  "[getSheetDataFromIbmcloud] Cost cell row for account \"" ++ acct ++
    "\" already exists"

/-- The non-skipped remainder of the `getSheetDataFromIbmcloud` loop body:
fatal if the account already has a cost row; otherwise create the row, note
the account metadata, and accumulate every resource into its bucket. -/
def ibmcIngest (st : IngestState) (e : IbmcResultsEntry) :
    Except String IngestState :=
  match alGet st.costCells e.AccountID with
  | some _ => .error (rowExistsMsg e.AccountID)
  | none =>
    .ok { st with
      metadata := alSet st.metadata e.AccountID
        ⟨e.AccountName, e.CloudProvider, e.CostCenter, e.Month,
          e.PayerAccountId⟩
      costCells := alSet st.costCells e.AccountID
        (e.Resources.foldl addResource []) }

/-- One iteration of the `getSheetDataFromIbmcloud` loop. -/
def ibmcStep (ourCostCenter : String) (st : IngestState)
    (e : IbmcResultsEntry) : Except String IngestState :=
  let sr := skipAccountEntry (alGet st.accountsMetadata e.AccountID)
    e.AccountID e.CostCenter e.CloudProvider e.AccountName st.ignored
    ourCostCenter "IBM Cloud"
  let st := applySkipResult st e.AccountID sr
  if sr.skip then .ok st else ibmcIngest st e

/-- `getSheetDataFromIbmcloud`: fold the account summaries through
`ibmcStep`; the warning-dedupe set `ignored` is local to the pass. -/
def getSheetDataFromIbmcloud (accounts : List IbmcResultsEntry)
    (ourCostCenter : String) (st0 : IngestState) :
    Except String IngestState :=
  accounts.foldlM (ibmcStep ourCostCenter) { st0 with ignored := [] }

/-! ## Reconciliation / Consistency Checker (`part_005`, `costpuller.go`) -/

/-- `AccountEntry` from the accounts YAML file. -/
structure AccountEntry where
  AccountID : String
  Standardvalue : ℚ
  Deviationpercent : Int
  Category : String
  Description : String
deriving DecidableEq, Repr

/-- The deviation-check failure message (numeric formatting abstracted). -/
def deviationMsg (diffAbs diffPercent : ℚ) (allowed : Int)
    (total standard : ℚ) : String :=
  "deviation check failed: deviation is " ++ toString diffAbs ++ " (" ++
    toString diffPercent ++ "%), max deviation allowed is " ++
    toString allowed ++ "% (value was " ++ toString total ++
    ", standard value " ++ toString standard ++ ")"

/-- `CheckResponseConsistency`: sum the per-service values; when a positive
standard value is declared, fail when the percent deviation strictly exceeds
the declared integer tolerance.  Returns the total and the error, if any. -/
def CheckResponseConsistency (account : AccountEntry)
    (results : List (String × ℚ)) : ℚ × Option String :=
  let total := (results.map Prod.snd).sum
  if account.Standardvalue > 0 then
    let diff := account.Standardvalue - total
    let diffAbs := |diff|
    let diffPercent := diffAbs / account.Standardvalue * 100
    if diffPercent > (account.Deviationpercent : ℚ) then
      (total, some (deviationMsg diffAbs diffPercent account.Deviationpercent
        total account.Standardvalue))
    else (total, none)
  else (total, none)

/-- Go's `math.Round`: nearest integer, rounding half away from zero. -/
def goRound (x : ℚ) : ℤ :=
  if x < 0 then -⌊-x + 1 / 2⌋ else ⌊x + 1 / 2⌋

/-- `math.Round(x*100)/100`: round to 2 decimal places. -/
def round2 (x : ℚ) : ℚ := (goRound (x * 100) : ℚ) / 100

/-- The cross-check mismatch report line written by `main` (numeric
formatting abstracted). -/
def crossCheckMsg (acct : String) (aws cm : ℚ) : String :=
  acct ++ ": error checking consistency of totals from AWS and CM: aws = " ++
    toString aws ++ "; cm = " ++ toString cm

/-- The cross-check step of `main`'s `crosscheck` loop body: compare the two
totals after rounding to cents; on mismatch append one report line and
continue (no fatal path — the embedding returns the report, not `Except`). -/
def crossCheckTotals (accountID : String) (totalAws totalCM : ℚ)
    (report : List String) : List String :=
  if round2 totalAws ≠ round2 totalCM then
    report ++ [crossCheckMsg accountID totalAws totalCM]
  else report

/-! ## Account Directory (`part_006`) -/

/-- Lower-case hexadecimal character class `[0-9a-f]`. -/
def isHexLowerCh (c : Char) : Bool := c.isDigit || ('a' ≤ c && c ≤ 'f')

/-- Consume a group of exactly `n` characters satisfying `pred`. -/
def takeGroup (pred : Char → Bool) (n : Nat) (cs : List Char) :
    Option (String × List Char) :=
  let g := cs.take n
  if g.length = n ∧ g.all pred then some (⟨g⟩, cs.drop n) else none

/-- Match the remaining fixed-width groups, each preceded by an optional
hyphen (`-?` between groups), requiring end of input after the last. -/
def matchTail (pred : Char → Bool) (sizes : List Nat) (cs : List Char) :
    Option (List String) :=
  match sizes with
  | [] => if cs.isEmpty then some [] else none
  | n :: rest =>
    let cs1 := if cs.head? = some '-' then cs.tail else cs
    (takeGroup pred n cs1).bind
      (fun gc => (matchTail pred rest gc.2).map (gc.1 :: ·))

/-- Match a full anchored fixed-width group pattern
`^(G{s₀})-?(G{s₁})-?…$`, returning the captured groups.  Because `-` is in
neither character class and the groups have fixed width, this deterministic
parse is equivalent to the backtracking regex. -/
def matchGroups (pred : Char → Bool) (first : Nat) (rest : List Nat)
    (s : String) : Option (List String) :=
  (takeGroup pred first s.toList).bind
    (fun gc => (matchTail pred rest gc.2).map (gc.1 :: ·))

/-- `accountIdPatterns`: the per-provider ID shapes.
`"Amazon"` ↦ `^([0-9]{4})-?([0-9]{4})-?([0-9]{4})$`;
`"Azure"` ↦ `^([0-9a-f]{8})-?([0-9a-f]{4})-?([0-9a-f]{4})-?([0-9a-f]{4})-?([0-9a-f]{12})$`. -/
def accountIdPatterns (provider : String) :
    Option ((Char → Bool) × Nat × List Nat) :=
  match provider with
  | "Amazon" => some (Char.isDigit, 4, [4, 4])
  | "Azure" => some (isHexLowerCh, 8, [4, 4, 4, 12])
  | _ => none

/-- The fatal message for an ID that does not match its provider's shape. -/
def badIdMsg (accountId : String) : String :=
  "[getAccountMetadata] unrecognized account id format, " ++ accountId

/-- The canonical map key for a declared account: join the matched groups
with hyphens for providers with a pattern; pass the ID through otherwise. -/
def canonicalAccountKey (provider accountId : String) :
    Except String String :=
  match accountIdPatterns provider with
  | some (pred, first, rest) =>
    match matchGroups pred first rest accountId with
    | some groups => .ok (String.intercalate "-" groups)
    | none => .error (badIdMsg accountId)
  | none => .ok accountId

/-- `getAccountMetadata`: invert the accounts-file hierarchy
(provider → group → entries) into a map keyed by canonical account ID.
The nested association lists stand for the YAML maps in iteration order. -/
def getAccountMetadata
    (providers : List (String × List (String × List AccountEntry))) :
    Except String (List (String × AccountMetadata)) :=
  providers.foldlM (fun md pg =>
    let provider := if pg.1 = "aws" then "Amazon" else pg.1
    pg.2.foldlM (fun md ge =>
      ge.2.foldlM (fun md entry => do
        let key ← canonicalAccountKey provider entry.AccountID
        pure (alSet md key
          ⟨entry.AccountID, entry.Category, provider, false,
            entry.Description, ge.1⟩)) md) md) []

/-! ## Spreadsheet Sync Protocol: the anchor search (`part_007`) -/

/-- `sheets.GridRange` (zero-based, start inclusive, end exclusive). -/
structure GridRange where
  SheetId : Int
  StartColumnIndex : Int
  StartRowIndex : Int
  EndColumnIndex : Int
  EndRowIndex : Int
deriving DecidableEq, Repr

/-- `strings.Contains pat ⊑ s` on character lists. -/
def containsSubList (pat : List Char) : List Char → Bool
  | [] => pat.isEmpty
  | c :: t => pat.isPrefixOf (c :: t) || containsSubList pat t

/-- `strings.Contains(s, pat)`. -/
def stringContains (s pat : String) : Bool :=
  containsSubList pat.toList s.toList

/-- Row-major scan of the main sheet's values for the first string cell
containing the new sheet's name (non-string cells never match); returns its
(row, column). -/
def findCellMatch (newSheetName : String) :
    List (List (Option String)) → Option (Nat × Nat)
  | [] => none
  | row :: rest =>
    match row.findIdx? (fun cell =>
        match cell with
        | some str => stringContains str newSheetName
        | none => false) with
    | some c => some (0, c)
    | none => (findCellMatch newSheetName rest).map (fun p => (p.1 + 1, p.2))

/-- `getNewSheetReference`: the indirect-reference anchor range — the first
matching cell's column, starting the row below it, with
`EndRowIndex = msRow + rowCount + 1`. -/
def getNewSheetReference (cells : List (List (Option String)))
    (mainSheetID : Int) (newSheetName : String) (rowCount : Nat) :
    Option GridRange :=
  (findCellMatch newSheetName cells).map (fun rc =>
    { SheetId := mainSheetID
      StartColumnIndex := (rc.2 : Int)
      StartRowIndex := (rc.1 : Int) + 1
      EndColumnIndex := (rc.2 : Int) + 1
      EndRowIndex := ((rc.1 : Int) + 1) + (rowCount : Int) + 1 })

/-- The caller glue in `postToGSheet`: the anchor range is computed with
`rowCount = len(sheetData)` (header row included) and a missing anchor is
fatal. -/
def resolveMainSheetRef (cells : List (List (Option String)))
    (mainSheetID : Int) (newSheetName : String)
    (sheetData : List (List CellData)) : Except String GridRange :=
  match getNewSheetReference cells mainSheetID newSheetName
      sheetData.length with
  | some ref => .ok ref
  | none => .error ("No reference to \"" ++ newSheetName ++
      "\" found in main sheet")

/-! ## Concrete materializer inputs used in the order analysis -/

def c9am : String → AccountMetadata :=
  fun _ => ⟨"x", "cat", "p", false, "", "t"⟩

def c9md : String → ProviderAccountMetadata :=
  fun aid => if aid = "k1" then ⟨"n1", "p", "cc", "d1", "pay"⟩
    else ⟨"n2", "p", "cc", "d2", "pay"⟩

def c9row (k : String) : List CellData :=
  (fixedColumnHeads ++ sortedKeys []).map (cellForKey k [] c9am c9md)

/-! ## Helper lemmas on the map embedding -/

theorem alGet_nil {β : Type} (k : String) :
    alGet ([] : List (String × β)) k = none := rfl

theorem alGet_cons {β : Type} (p : String × β) (t : List (String × β))
    (k : String) :
    alGet (p :: t) k = if p.1 = k then some p.2 else alGet t k := by
  by_cases h : p.1 = k
  · simp [alGet, List.find?_cons_of_pos, h]
  · simp only [alGet, if_neg h]
    rw [List.find?_cons_of_neg]
    simpa using h

theorem alSet_cons {β : Type} (p : String × β) (t : List (String × β))
    (k : String) (v : β) :
    alSet (p :: t) k v =
      if p.1 = k then (k, v) :: t else p :: alSet t k v := by
  simp only [alSet]
  by_cases h : p.1 = k
  · rw [if_pos (by simpa using h), if_pos h]
  · rw [if_neg (by simpa using h), if_neg h]

theorem alGet_alSet_self {β : Type} (l : List (String × β)) (k : String)
    (v : β) : alGet (alSet l k v) k = some v := by
  induction l with
  | nil => simp [alSet, alGet_cons, alGet_nil]
  | cons p t ih =>
    rw [alSet_cons]
    by_cases h : p.1 = k
    · rw [if_pos h, alGet_cons]
      simp
    · rw [if_neg h, alGet_cons, if_neg h]
      exact ih

theorem alGet_alSet_ne {β : Type} (l : List (String × β)) {k k' : String}
    (h : k' ≠ k) (v : β) : alGet (alSet l k v) k' = alGet l k' := by
  induction l with
  | nil => simp [alSet, alGet_cons, alGet_nil, Ne.symm h]
  | cons p t ih =>
    rw [alSet_cons]
    by_cases hp : p.1 = k
    · rw [if_pos hp, alGet_cons, alGet_cons, if_neg (Ne.symm h),
        if_neg (by rw [hp]; exact Ne.symm h)]
    · rw [if_neg hp, alGet_cons, alGet_cons]
      by_cases hp' : p.1 = k'
      · rw [if_pos hp', if_pos hp']
      · rw [if_neg hp', if_neg hp']
        exact ih

theorem alGet_alSet_isSome {β : Type} (l : List (String × β))
    (k k' : String) (v : β) (h : (alGet l k').isSome) :
    (alGet (alSet l k v) k').isSome := by
  by_cases hk : k' = k
  · subst hk; simp [alGet_alSet_self]
  · rwa [alGet_alSet_ne l hk]

/-- Decompose a successful `Except` bind. -/
theorem exceptBind_ok {ε α β : Type} {x : Except ε α} {f : α → Except ε β}
    {c : β} (h : (x >>= f) = .ok c) : ∃ b, x = .ok b ∧ f b = .ok c := by
  cases x with
  | ok b => exact ⟨b, rfl, h⟩
  | error e => simp [Bind.bind, Except.bind] at h

/-! ## Helper lemmas on `skipAccountEntry` and the ingestion steps -/

theorem skipAccountEntry_some (m : AccountMetadata)
    (accountId costCenter providerConfigName accountName : String)
    (ignored : List String) (ourCostCenter dataSource : String) :
    (skipAccountEntry (some m) accountId costCenter providerConfigName
        accountName ignored ourCostCenter dataSource).skip = false ∧
    (∃ m', (skipAccountEntry (some m) accountId costCenter
        providerConfigName accountName ignored ourCostCenter
        dataSource).meta = some m') ∧
    (skipAccountEntry (some m) accountId costCenter providerConfigName
        accountName ignored ourCostCenter dataSource).ignored = ignored := by
  simp only [skipAccountEntry]
  split_ifs <;> exact ⟨rfl, ⟨_, rfl⟩, rfl⟩

theorem skipAccountEntry_none (accountId costCenter providerConfigName
    accountName : String) (ignored : List String)
    (ourCostCenter dataSource : String) :
    (skipAccountEntry none accountId costCenter providerConfigName
        accountName ignored ourCostCenter dataSource).skip = true ∧
    (skipAccountEntry none accountId costCenter providerConfigName
        accountName ignored ourCostCenter dataSource).meta = none := by
  simp only [skipAccountEntry]
  split_ifs <;> exact ⟨rfl, rfl⟩

theorem applySkipResult_costCells (st : IngestState) (a : String)
    (sr : SkipResult) : (applySkipResult st a sr).costCells = st.costCells := by
  rcases sr with ⟨sk, ig, mo, lg⟩
  cases mo <;> rfl

theorem applySkipResult_meta_isSome (st : IngestState) (a b : String)
    (sr : SkipResult) (h : (alGet st.accountsMetadata b).isSome) :
    (alGet (applySkipResult st a sr).accountsMetadata b).isSome := by
  rcases sr with ⟨sk, ig, mo, lg⟩
  cases mo with
  | none => exact h
  | some m => exact alGet_alSet_isSome _ _ _ _ h

/-- `cldyIngest` on an already-written cell is the fatal duplicate error. -/
theorem cldyIngest_dup {dateStr : String} {st : IngestState}
    {e : ResultsEntry} {v : ℚ}
    (h : alGet (alGetD st.costCells e.AccountID []) e.UsageFamily = some v) :
    cldyIngest dateStr st e =
      .error (dupEntryMsg e.AccountID e.UsageFamily v e.Cost) := by
  rcases hr : alGet st.costCells e.AccountID with _ | r
  · rw [alGetD, hr] at h
    simp [alGet_nil] at h
  · unfold cldyIngest
    have hD : alGetD st.costCells e.AccountID [] = r := by rw [alGetD, hr]; rfl
    rw [hD] at h
    simp only [hr, Option.isNone_some, Bool.false_eq_true, if_false, hD, h]

/-- `cldyIngest` on a fresh cell succeeds, writes exactly that cell, and
preserves every existing cell and the `accountsMetadata` map. -/
theorem cldyIngest_fresh {dateStr : String} {st : IngestState}
    {e : ResultsEntry}
    (h : alGet (alGetD st.costCells e.AccountID []) e.UsageFamily = none) :
    ∃ st', cldyIngest dateStr st e = .ok st' ∧
      st'.accountsMetadata = st.accountsMetadata ∧
      alGet (alGetD st'.costCells e.AccountID []) e.UsageFamily =
        some e.Cost ∧
      (∀ a fam v, alGet (alGetD st.costCells a []) fam = some v →
        alGet (alGetD st'.costCells a []) fam = some v) := by
  rcases hr : alGet st.costCells e.AccountID with _ | r
  · refine ⟨{ st with
      columnHeads := if e.UsageFamily ∈ st.columnHeads then st.columnHeads
        else st.columnHeads ++ [e.UsageFamily]
      metadata := match alGet st.metadata e.AccountID with
        | some _ => st.metadata
        | none => alSet st.metadata e.AccountID
            ⟨e.AccountName, e.CloudProvider, e.CostCenter, dateStr,
              e.PayerAccountId⟩
      costCells := alSet (alSet st.costCells e.AccountID []) e.AccountID
        (alSet ([] : List (String × ℚ)) e.UsageFamily e.Cost) }, ?_, rfl,
      ?_, ?_⟩
    · unfold cldyIngest
      simp only [hr, Option.isNone_none, if_true]
      have hD : alGetD (alSet st.costCells e.AccountID ([] : List (String × ℚ)))
          e.AccountID [] = [] := by
        rw [alGetD, alGet_alSet_self]; rfl
      rw [hD]
      simp only [alGet_nil]
    · rw [alGetD, alGet_alSet_self]
      simp only [Option.getD_some]
      exact alGet_alSet_self _ _ _
    · intro a fam v hv
      by_cases ha : a = e.AccountID
      · subst ha
        rw [alGetD, hr] at hv
        simp [alGet_nil] at hv
      · rw [alGetD, alGet_alSet_ne _ ha, alGet_alSet_ne _ ha, ← alGetD]
        exact hv
  · have hD : alGetD st.costCells e.AccountID [] = r := by rw [alGetD, hr]; rfl
    rw [hD] at h
    refine ⟨{ st with
      columnHeads := if e.UsageFamily ∈ st.columnHeads then st.columnHeads
        else st.columnHeads ++ [e.UsageFamily]
      metadata := match alGet st.metadata e.AccountID with
        | some _ => st.metadata
        | none => alSet st.metadata e.AccountID
            ⟨e.AccountName, e.CloudProvider, e.CostCenter, dateStr,
              e.PayerAccountId⟩
      costCells := alSet st.costCells e.AccountID
        (alSet r e.UsageFamily e.Cost) }, ?_, rfl, ?_, ?_⟩
    · unfold cldyIngest
      simp only [hr, Option.isNone_some, Bool.false_eq_true, if_false, hD, h]
    · rw [alGetD, alGet_alSet_self]
      simp only [Option.getD_some]
      exact alGet_alSet_self _ _ _
    · intro a fam v hv
      by_cases ha : a = e.AccountID
      · subst ha
        rw [hD] at hv
        by_cases hf : fam = e.UsageFamily
        · subst hf
          rw [hv] at h
          cases h
        · rw [alGetD, alGet_alSet_self]
          simp only [Option.getD_some]
          rw [alGet_alSet_ne _ hf]
          exact hv
      · rw [alGetD, alGet_alSet_ne _ ha, ← alGetD]
        exact hv

/-- An untracked account makes `cldyStep` a skip: the grid, column set and
per-account metadata are untouched. -/
theorem cldyStep_untracked {our date : String} {st : IngestState}
    {e : ResultsEntry} (hm : alGet st.accountsMetadata e.AccountID = none) :
    cldyStep our date st e =
      .ok (applySkipResult st e.AccountID
        (skipAccountEntry none e.AccountID e.CostCenter e.CloudProvider
          e.AccountName st.ignored our "Cloudability")) := by
  unfold cldyStep
  rw [hm]
  simp only [(skipAccountEntry_none e.AccountID e.CostCenter e.CloudProvider
    e.AccountName st.ignored our "Cloudability").1, if_true]

/-- A tracked account makes `cldyStep` run `cldyIngest`. -/
theorem cldyStep_tracked {our date : String} {st : IngestState}
    {e : ResultsEntry} {m : AccountMetadata}
    (hm : alGet st.accountsMetadata e.AccountID = some m) :
    cldyStep our date st e =
      cldyIngest date
        (applySkipResult st e.AccountID
          (skipAccountEntry (some m) e.AccountID e.CostCenter
            e.CloudProvider e.AccountName st.ignored our "Cloudability")) e := by
  unfold cldyStep
  rw [hm]
  simp only [(skipAccountEntry_some m e.AccountID e.CostCenter e.CloudProvider
    e.AccountName st.ignored our "Cloudability").1, Bool.false_eq_true,
    if_false]

/-- `cldyStep` preserves presence in the account directory. -/
theorem cldyStep_meta_isSome {our date : String} {st st' : IngestState}
    {e : ResultsEntry} (h : cldyStep our date st e = .ok st') (a : String)
    (ha : (alGet st.accountsMetadata a).isSome) :
    (alGet st'.accountsMetadata a).isSome := by
  rcases hm : alGet st.accountsMetadata e.AccountID with _ | m
  · rw [cldyStep_untracked hm] at h
    cases h
    exact applySkipResult_meta_isSome _ _ _ _ ha
  · rw [cldyStep_tracked hm] at h
    rcases hcell : alGet (alGetD (applySkipResult st e.AccountID
        (skipAccountEntry (some m) e.AccountID e.CostCenter e.CloudProvider
          e.AccountName st.ignored our "Cloudability")).costCells
        e.AccountID []) e.UsageFamily with _ | w
    · obtain ⟨st'', hok, hmeta, _, _⟩ := @cldyIngest_fresh date _ _ hcell
      rw [hok] at h
      cases h
      rw [hmeta]
      exact applySkipResult_meta_isSome _ _ _ _ ha
    · rw [cldyIngest_dup hcell] at h
      cases h

/-- `cldyStep` preserves every already-written grid cell and its value. -/
theorem cldyStep_cell_mono {our date : String} {st st' : IngestState}
    {e : ResultsEntry} (h : cldyStep our date st e = .ok st')
    (a fam : String) (v : ℚ)
    (hc : alGet (alGetD st.costCells a []) fam = some v) :
    alGet (alGetD st'.costCells a []) fam = some v := by
  rcases hm : alGet st.accountsMetadata e.AccountID with _ | m
  · rw [cldyStep_untracked hm] at h
    cases h
    rw [applySkipResult_costCells]
    exact hc
  · rw [cldyStep_tracked hm] at h
    set stx := applySkipResult st e.AccountID
      (skipAccountEntry (some m) e.AccountID e.CostCenter e.CloudProvider
        e.AccountName st.ignored our "Cloudability") with hstx
    have hccx : stx.costCells = st.costCells := applySkipResult_costCells _ _ _
    rcases hcell : alGet (alGetD stx.costCells e.AccountID []) e.UsageFamily
        with _ | w
    · obtain ⟨st'', hok, _, _, hpres⟩ := @cldyIngest_fresh date _ _ hcell
      rw [hok] at h
      cases h
      exact hpres a fam v (by rw [hccx]; exact hc)
    · rw [cldyIngest_dup hcell] at h
      cases h

/-- A tracked account's `cldyStep` writes its cell on success. -/
theorem cldyStep_writes {our date : String} {st st' : IngestState}
    {e : ResultsEntry} {m : AccountMetadata}
    (hm : alGet st.accountsMetadata e.AccountID = some m)
    (h : cldyStep our date st e = .ok st') :
    alGet (alGetD st'.costCells e.AccountID []) e.UsageFamily =
      some e.Cost := by
  rw [cldyStep_tracked hm] at h
  rcases hcell : alGet (alGetD (applySkipResult st e.AccountID
      (skipAccountEntry (some m) e.AccountID e.CostCenter e.CloudProvider
        e.AccountName st.ignored our "Cloudability")).costCells
      e.AccountID []) e.UsageFamily with _ | w
  · obtain ⟨st'', hok, _, hcellw, _⟩ := @cldyIngest_fresh date _ _ hcell
    rw [hok] at h
    cases h
    exact hcellw
  · rw [cldyIngest_dup hcell] at h
    cases h

/-- A tracked account's `cldyStep` on an already-written cell is the fatal
duplicate error naming the account and the usage family. -/
theorem cldyStep_dup {our date : String} {st : IngestState}
    {e : ResultsEntry} {m : AccountMetadata} {v : ℚ}
    (hm : alGet st.accountsMetadata e.AccountID = some m)
    (hc : alGet (alGetD st.costCells e.AccountID []) e.UsageFamily = some v) :
    cldyStep our date st e =
      .error (dupEntryMsg e.AccountID e.UsageFamily v e.Cost) := by
  rw [cldyStep_tracked hm]
  exact cldyIngest_dup (by rw [applySkipResult_costCells]; exact hc)

/-- Directory presence is preserved along a whole Cloudability fold. -/
theorem cldyFold_meta_isSome {our date : String} :
    ∀ (l : List ResultsEntry) (st st' : IngestState),
      l.foldlM (cldyStep our date) st = .ok st' →
      ∀ a, (alGet st.accountsMetadata a).isSome →
        (alGet st'.accountsMetadata a).isSome := by
  intro l
  induction l with
  | nil =>
    intro st st' h a ha
    cases h
    exact ha
  | cons e t ih =>
    intro st st' h a ha
    rw [List.foldlM_cons] at h
    obtain ⟨stb, hstep, hrest⟩ := exceptBind_ok h
    exact ih stb st' hrest a (cldyStep_meta_isSome hstep a ha)

/-- Written grid cells are preserved along a whole Cloudability fold. -/
theorem cldyFold_cell_mono {our date : String} :
    ∀ (l : List ResultsEntry) (st st' : IngestState),
      l.foldlM (cldyStep our date) st = .ok st' →
      ∀ a fam v, alGet (alGetD st.costCells a []) fam = some v →
        alGet (alGetD st'.costCells a []) fam = some v := by
  intro l
  induction l with
  | nil =>
    intro st st' h a fam v hv
    cases h
    exact hv
  | cons e t ih =>
    intro st st' h a fam v hv
    rw [List.foldlM_cons] at h
    obtain ⟨stb, hstep, hrest⟩ := exceptBind_ok h
    exact ih stb st' hrest a fam v (cldyStep_cell_mono hstep a fam v hv)

/-! ## Helper lemmas on the IBM Cloud pass -/

/-- An untracked account makes `ibmcStep` a skip. -/
theorem ibmcStep_untracked {our : String} {st : IngestState}
    {e : IbmcResultsEntry}
    (hm : alGet st.accountsMetadata e.AccountID = none) :
    ibmcStep our st e =
      .ok (applySkipResult st e.AccountID
        (skipAccountEntry none e.AccountID e.CostCenter e.CloudProvider
          e.AccountName st.ignored our "IBM Cloud")) := by
  unfold ibmcStep
  rw [hm]
  simp only [(skipAccountEntry_none e.AccountID e.CostCenter e.CloudProvider
    e.AccountName st.ignored our "IBM Cloud").1, if_true]

/-- A tracked account makes `ibmcStep` run `ibmcIngest`. -/
theorem ibmcStep_tracked {our : String} {st : IngestState}
    {e : IbmcResultsEntry} {m : AccountMetadata}
    (hm : alGet st.accountsMetadata e.AccountID = some m) :
    ibmcStep our st e =
      ibmcIngest
        (applySkipResult st e.AccountID
          (skipAccountEntry (some m) e.AccountID e.CostCenter
            e.CloudProvider e.AccountName st.ignored our "IBM Cloud")) e := by
  unfold ibmcStep
  rw [hm]
  simp only [(skipAccountEntry_some m e.AccountID e.CostCenter e.CloudProvider
    e.AccountName st.ignored our "IBM Cloud").1, Bool.false_eq_true, if_false]

/-- A tracked account whose cost row already exists makes `ibmcStep` the
fatal row-exists error. -/
theorem ibmcStep_rowExists {our : String} {st : IngestState}
    {e : IbmcResultsEntry} {m : AccountMetadata}
    (hm : alGet st.accountsMetadata e.AccountID = some m)
    (hrow : (alGet st.costCells e.AccountID).isSome) :
    ibmcStep our st e = .error (rowExistsMsg e.AccountID) := by
  rw [ibmcStep_tracked hm]
  unfold ibmcIngest
  rw [applySkipResult_costCells]
  rcases hr : alGet st.costCells e.AccountID with _ | r
  · rw [hr] at hrow
    cases hrow
  · rfl

/-- A successful `ibmcIngest` presupposes a fresh account row and writes the
bucket-accumulated row for it. -/
theorem ibmcIngest_ok {st st' : IngestState} {e : IbmcResultsEntry}
    (h : ibmcIngest st e = .ok st') :
    alGet st.costCells e.AccountID = none ∧
    alGet st'.costCells e.AccountID =
      some (e.Resources.foldl addResource []) ∧
    st'.accountsMetadata = st.accountsMetadata ∧
    (∀ b, b ≠ e.AccountID → alGet st'.costCells b = alGet st.costCells b) := by
  unfold ibmcIngest at h
  rcases hr : alGet st.costCells e.AccountID with _ | r
  · rw [hr] at h
    cases h
    exact ⟨rfl, alGet_alSet_self _ _ _, rfl,
      fun b hb => alGet_alSet_ne _ hb _⟩
  · rw [hr] at h
    cases h

/-- `ibmcStep` preserves presence in the account directory. -/
theorem ibmcStep_meta_isSome {our : String} {st st' : IngestState}
    {e : IbmcResultsEntry} (h : ibmcStep our st e = .ok st') (a : String)
    (ha : (alGet st.accountsMetadata a).isSome) :
    (alGet st'.accountsMetadata a).isSome := by
  rcases hm : alGet st.accountsMetadata e.AccountID with _ | m
  · rw [ibmcStep_untracked hm] at h
    cases h
    exact applySkipResult_meta_isSome _ _ _ _ ha
  · rw [ibmcStep_tracked hm] at h
    obtain ⟨_, _, hmeta, _⟩ := ibmcIngest_ok h
    rw [hmeta]
    exact applySkipResult_meta_isSome _ _ _ _ ha

/-- `ibmcStep` preserves presence of existing cost rows. -/
theorem ibmcStep_row_isSome {our : String} {st st' : IngestState}
    {e : IbmcResultsEntry} (h : ibmcStep our st e = .ok st') (b : String)
    (hb : (alGet st.costCells b).isSome) :
    (alGet st'.costCells b).isSome := by
  rcases hm : alGet st.accountsMetadata e.AccountID with _ | m
  · rw [ibmcStep_untracked hm] at h
    cases h
    rw [applySkipResult_costCells]
    exact hb
  · rw [ibmcStep_tracked hm] at h
    obtain ⟨hfresh, hwrite, _, hother⟩ := ibmcIngest_ok h
    rw [applySkipResult_costCells] at hfresh hother
    by_cases he : b = e.AccountID
    · subst he
      rw [hfresh] at hb
      cases hb
    · rw [hother b he]
      exact hb

/-- Directory presence is preserved along a whole IBM Cloud fold. -/
theorem ibmcFold_meta_isSome {our : String} :
    ∀ (l : List IbmcResultsEntry) (st st' : IngestState),
      l.foldlM (ibmcStep our) st = .ok st' →
      ∀ a, (alGet st.accountsMetadata a).isSome →
        (alGet st'.accountsMetadata a).isSome := by
  intro l
  induction l with
  | nil =>
    intro st st' h a ha
    cases h
    exact ha
  | cons e t ih =>
    intro st st' h a ha
    rw [List.foldlM_cons] at h
    obtain ⟨stb, hstep, hrest⟩ := exceptBind_ok h
    exact ih stb st' hrest a (ibmcStep_meta_isSome hstep a ha)

/-- Cost-row presence is preserved along a whole IBM Cloud fold. -/
theorem ibmcFold_row_isSome {our : String} :
    ∀ (l : List IbmcResultsEntry) (st st' : IngestState),
      l.foldlM (ibmcStep our) st = .ok st' →
      ∀ b, (alGet st.costCells b).isSome →
        (alGet st'.costCells b).isSome := by
  intro l
  induction l with
  | nil =>
    intro st st' h b hb
    cases h
    exact hb
  | cons e t ih =>
    intro st st' h b hb
    rw [List.foldlM_cons] at h
    obtain ⟨stb, hstep, hrest⟩ := exceptBind_ok h
    exact ih stb st' hrest b (ibmcStep_row_isSome hstep b hb)

/-- Folding resources with `addResource` accumulates per bucket: the final
value of a bucket is its initial value plus the sum of the billable costs of
all resources mapped to it. -/
theorem foldl_addResource_bucket :
    ∀ (resources : List IbmcResource) (row0 : List (String × ℚ))
      (bucket : String),
      alGetD (resources.foldl addResource row0) bucket 0 =
        alGetD row0 bucket 0 +
          ((resources.filter
            (fun r => bucketOf r.ResourceName == bucket)).map
              IbmcResource.BillableCost).sum := by
  intro resources
  induction resources with
  | nil => intro row0 bucket; simp
  | cons r t ih =>
    intro row0 bucket
    rw [List.foldl_cons, ih]
    by_cases hb : bucketOf r.ResourceName = bucket
    · have hstep : alGetD (addResource row0 r) bucket 0 =
          alGetD row0 bucket 0 + r.BillableCost := by
        unfold addResource
        rw [← hb, alGetD, alGet_alSet_self]
        rfl
      rw [hstep, List.filter_cons_of_pos (by simpa using hb)]
      simp only [List.map_cons, List.sum_cons]
      ring
    · have hstep : alGetD (addResource row0 r) bucket 0 =
          alGetD row0 bucket 0 := by
        unfold addResource
        rw [alGetD, alGet_alSet_ne _ (fun hh => hb hh.symm), ← alGetD]
      rw [hstep, List.filter_cons_of_neg (by simpa using hb)]

/-! ## Substring facts (the fatal message names the account and category) -/

theorem containsSubList_here (pat u : List Char) :
    containsSubList pat (pat ++ u) = true := by
  cases pat with
  | nil =>
    cases u with
    | nil => rfl
    | cons c t => simp [containsSubList]
  | cons c t => simp [containsSubList]

theorem containsSubList_cons_of (pat : List Char) (c : Char)
    (l : List Char) (h : containsSubList pat l = true) :
    containsSubList pat (c :: l) = true := by
  simp [containsSubList, h]

theorem containsSubList_append_left (pat : List Char) :
    ∀ (s u : List Char), containsSubList pat (s ++ pat ++ u) = true := by
  intro s u
  induction s with
  | nil => simpa using containsSubList_here pat u
  | cons c t ih => exact containsSubList_cons_of _ _ _ ih

/-- Any string of the form `x ++ t ++ y` contains `t`. -/
theorem stringContains_mid (x t y : String) :
    stringContains (x ++ t ++ y) t = true := by
  unfold stringContains
  have hx : (x ++ t ++ y).toList = x.toList ++ t.toList ++ y.toList := by
    simp [String.toList]
  rw [hx]
  exact containsSubList_append_left _ _ _

/-- C2: for every account with declared expected value `E = Standardvalue`
and integer tolerance `T = Deviationpercent`, the deviation check of
`CheckResponseConsistency` runs only when `E > 0`, the percent deviation is
`|E - total| / E * 100`, and the check fails exactly when that percent is
strictly greater than `T` (equality passes).  In particular
`CheckDeviation(100, 100, 0)` passes, `CheckDeviation(100, 90, 5)` fails,
and `CheckDeviation(100, 0, t)` is skipped for every `t`. -/
theorem CheckResponseConsistency_deviation_spec :
    (∀ (account : AccountEntry) (results : List (String × ℚ)),
      ((CheckResponseConsistency account results).2 ≠ none ↔
        account.Standardvalue > 0 ∧
          |account.Standardvalue - (results.map Prod.snd).sum| /
              account.Standardvalue * 100 >
            (account.Deviationpercent : ℚ)) ∧
      (CheckResponseConsistency account results).1 =
        (results.map Prod.snd).sum) ∧
    (CheckResponseConsistency ⟨"A", 100, 0, "", ""⟩ [("s", 100)]).2 = none ∧
    (CheckResponseConsistency ⟨"A", 90, 5, "", ""⟩ [("s", 100)]).2 ≠ none ∧
    ∀ t : Int,
      (CheckResponseConsistency ⟨"A", 0, t, "", ""⟩ [("s", 100)]).2 = none := by
  refine ⟨fun account results => ⟨?_, ?_⟩, ?_, ?_, fun t => ?_⟩
  · unfold CheckResponseConsistency
    by_cases h1 : account.Standardvalue > 0
    · by_cases h2 : |account.Standardvalue - (results.map Prod.snd).sum| /
          account.Standardvalue * 100 > (account.Deviationpercent : ℚ)
      · simp [h1, h2]
      · simp [h1, h2]
    · simp [h1]
  · unfold CheckResponseConsistency
    by_cases h1 : account.Standardvalue > 0
    · by_cases h2 : |account.Standardvalue - (results.map Prod.snd).sum| /
          account.Standardvalue * 100 > (account.Deviationpercent : ℚ)
      · simp [h1, h2]
      · simp [h1, h2]
    · simp [h1]
  · norm_num [CheckResponseConsistency]
  · norm_num [CheckResponseConsistency]
    exact fun h => Option.noConfusion h
  · norm_num [CheckResponseConsistency]

/-- Witness for C2: the general characterization applied at a concrete
account (expected 80, actual 100, tolerance 10: 25% > 10% fails). -/
theorem CheckResponseConsistency_deviation_witness :
    (CheckResponseConsistency ⟨"W", 80, 10, "", ""⟩ [("s", 100)]).2 ≠ none :=
  (CheckResponseConsistency_deviation_spec.1 ⟨"W", 80, 10, "", ""⟩
    [("s", 100)]).1.mpr (by norm_num)

/-- C3: the AWS / cost-management cross-check compares the two totals after
rounding each to 2 decimal places, the rounding rule is
round-half-away-from-zero at the cent boundary, and a mismatch is non-fatal:
`crossCheckTotals` (the loop body of `main`'s crosscheck mode, which has no
fatal path) appends exactly one report line naming the account and the run
continues. -/
theorem crossCheckTotals_spec :
    (∀ (acct : String) (ta tb : ℚ) (report : List String),
      (crossCheckTotals acct ta tb report = report ↔
        round2 ta = round2 tb) ∧
      (round2 ta ≠ round2 tb →
        crossCheckTotals acct ta tb report =
          report ++ [crossCheckMsg acct ta tb])) ∧
    (∀ (x : ℚ) (n : ℤ), 0 ≤ x → x * 100 = (n : ℚ) + 1 / 2 →
      round2 x = ((n + 1 : ℤ) : ℚ) / 100) ∧
    (∀ (x : ℚ) (n : ℤ), x ≤ 0 → x * 100 = -((n : ℚ) + 1 / 2) →
      round2 x = ((-(n + 1) : ℤ) : ℚ) / 100) := by
  refine ⟨fun acct ta tb report => ⟨?_, ?_⟩, fun x n hx hmid => ?_,
    fun x n hx hmid => ?_⟩
  · unfold crossCheckTotals
    split_ifs with h
    · simp [h]
    · simpa using not_not.mp h
  · intro h
    simp [crossCheckTotals, h]
  · have hnn : ¬x * 100 < 0 := by nlinarith
    unfold round2 goRound
    rw [if_neg hnn, hmid]
    have : ((n : ℚ) + 1 / 2) + 1 / 2 = ((n + 1 : ℤ) : ℚ) := by push_cast; ring
    rw [this, Int.floor_intCast]
  · have hn0 : (0 : ℚ) ≤ (n : ℚ) + 1 / 2 := by nlinarith
    have hneg : x * 100 < 0 := by
      rw [hmid]
      have : (0 : ℚ) < (n : ℚ) + 1 / 2 := by
        rcases lt_or_le (n : ℚ) 0 with h | h
        · exfalso
          have : (n : ℤ) < 0 := by exact_mod_cast h
          have : (n : ℤ) ≤ -1 := by omega
          have : (n : ℚ) ≤ -1 := by exact_mod_cast this
          nlinarith
        · nlinarith
      linarith
    unfold round2 goRound
    rw [if_pos hneg, hmid]
    have : -(-((n : ℚ) + 1 / 2)) + 1 / 2 = ((n + 1 : ℤ) : ℚ) := by
      push_cast; ring
    rw [this, Int.floor_intCast]

/-- Witness for C3: the cross-check at totals 1.005 and 1.0049 — both round
away from zero at the cent boundary (1.01 vs 1.00), so one report line is
appended. -/
theorem crossCheckTotals_witness :
    crossCheckTotals "W" (1005 / 1000) (10049 / 10000) [] =
      [crossCheckMsg "W" (1005 / 1000) (10049 / 10000)] :=
  (crossCheckTotals_spec.1 "W" (1005 / 1000) (10049 / 10000) []).2
    (by norm_num [round2, goRound])

/-- Strings built around an embedded component contain that component. -/
theorem stringContains_of_toList (s t : String) (x y : List Char)
    (h : s.toList = x ++ t.toList ++ y) : stringContains s t = true := by
  unfold stringContains
  rw [h]
  exact containsSubList_append_left _ _ _

/-- C1: ingestion policy is asymmetric by source.  Primary bulk source
(Cloudability): once a record for a tracked account has written the cell
`(account, usage family)`, a later record of the same bulk pull with the
same account and usage family makes the run fail with the fatal duplicate
message (which names the account and the category, third conjunct);
augmenting resource-level source (IBM Cloud): a successfully ingested
account's bucket holds the sum (`+=`) of the billable costs of all upstream
resource names mapping to that bucket, never an overwritten single value. -/
theorem ingestion_duplicate_policy_spec :
    (∀ (our date : String) (st0 st2 : IngestState)
        (l1 l2 l3 : List ResultsEntry) (e1 e2 : ResultsEntry),
      e2.AccountID = e1.AccountID → e2.UsageFamily = e1.UsageFamily →
      (alGet st0.accountsMetadata e1.AccountID).isSome →
      getSheetDataFromCloudability (l1 ++ e1 :: l2) our date st0 = .ok st2 →
      getSheetDataFromCloudability (l1 ++ e1 :: l2 ++ e2 :: l3) our date st0
        = .error (dupEntryMsg e1.AccountID e1.UsageFamily e1.Cost e2.Cost)) ∧
    (∀ (our : String) (st st' : IngestState) (e : IbmcResultsEntry),
      (alGet st.accountsMetadata e.AccountID).isSome →
      ibmcStep our st e = .ok st' →
      ∀ bucket, alGetD (alGetD st'.costCells e.AccountID []) bucket 0 =
        ((e.Resources.filter
          (fun r => bucketOf r.ResourceName == bucket)).map
            IbmcResource.BillableCost).sum) ∧
    (∀ (acct fam : String) (o n : ℚ),
      stringContains (dupEntryMsg acct fam o n) acct = true ∧
      stringContains (dupEntryMsg acct fam o n) fam = true) := by
  refine ⟨?_, ?_, ?_⟩
  · intro our date st0 st2 l1 l2 l3 e1 e2 hacc hfam htr hpre
    unfold getSheetDataFromCloudability at hpre ⊢
    rw [List.foldlM_append] at hpre
    obtain ⟨sA, h1, hrest⟩ := exceptBind_ok hpre
    rw [List.foldlM_cons] at hrest
    obtain ⟨sB, hstep1, h2⟩ := exceptBind_ok hrest
    have htr0 : (alGet ({ st0 with ignored := [] } :
        IngestState).accountsMetadata e1.AccountID).isSome := htr
    have hA := cldyFold_meta_isSome l1 _ sA h1 e1.AccountID htr0
    obtain ⟨m, hm⟩ := Option.isSome_iff_exists.mp hA
    have hcellB := cldyStep_writes hm hstep1
    have hcell2 := cldyFold_cell_mono l2 sB st2 h2 e1.AccountID
      e1.UsageFamily e1.Cost hcellB
    have hB := cldyStep_meta_isSome hstep1 e1.AccountID hA
    have h2meta := cldyFold_meta_isSome l2 sB st2 h2 e1.AccountID hB
    obtain ⟨m2, hm2⟩ := Option.isSome_iff_exists.mp h2meta
    have hstep2 : cldyStep our date st2 e2 =
        .error (dupEntryMsg e1.AccountID e1.UsageFamily e1.Cost e2.Cost) := by
      have := @cldyStep_dup our date st2 e2 m2 e1.Cost
        (by rw [hacc]; exact hm2)
        (by rw [hacc, hfam]; exact hcell2)
      rw [hacc, hfam] at this
      exact this
    rw [List.foldlM_append, List.foldlM_append, hpre]
    have hbind : ((Except.ok st2 : Except String IngestState) >>=
        fun s => List.foldlM (cldyStep our date) s (e2 :: l3)) =
        List.foldlM (cldyStep our date) st2 (e2 :: l3) := rfl
    rw [hbind, List.foldlM_cons, hstep2]
    rfl
  · intro our st st' e hsome hok bucket
    obtain ⟨m, hm⟩ := Option.isSome_iff_exists.mp hsome
    rw [ibmcStep_tracked hm] at hok
    obtain ⟨hfresh, hwrite, _, _⟩ := ibmcIngest_ok hok
    have hrow : alGetD st'.costCells e.AccountID [] =
        e.Resources.foldl addResource [] := by
      rw [alGetD, hwrite]
      rfl
    rw [hrow, foldl_addResource_bucket]
    simp [alGetD, alGet_nil]
  · intro acct fam o n
    constructor
    · refine stringContains_of_toList _ _ "Duplicate entry for ".toList
        ((":" ++ fam ++ ", values " ++ toString o ++ " and " ++
          toString n).toList) ?_
      simp [dupEntryMsg, String.toList]
    · refine stringContains_of_toList _ _
        ("Duplicate entry for " ++ acct ++ ":").toList
        ((", values " ++ toString o ++ " and " ++ toString n).toList) ?_
      simp [dupEntryMsg, String.toList]

/-- Witness for C1: a two-record Cloudability pull for tracked account `"A"`
with usage family `"Storage"` (amounts 1 and 2) aborts with the duplicate
message, and an IBM Cloud account with two storage resources (1 and 2) gets
them summed into one `"Storage"` bucket value 3. -/
theorem ingestion_duplicate_policy_witness :
    getSheetDataFromCloudability
      [⟨"A", "n", "Amazon", "cc", "p", "Storage", 1⟩,
       ⟨"A", "n", "Amazon", "cc", "p", "Storage", 2⟩]
      "cc" "2024-08"
      ⟨[("A", ⟨"A", "cat", "Amazon", false, "", "team"⟩)], [], [], [], [], []⟩
      = .error (dupEntryMsg "A" "Storage" 1 2) ∧
    alGetD (alGetD ([("B", [("Storage", (3 : ℚ))])] :
        List (String × List (String × ℚ))) "B" []) "Storage" 0 = 3 :=
  ⟨ingestion_duplicate_policy_spec.1 "cc" "2024-08"
      ⟨[("A", ⟨"A", "cat", "Amazon", false, "", "team"⟩)], [], [], [], [], []⟩
      ⟨[("A", ⟨"A", "cat", "Amazon", true, "", "team"⟩)],
        [("A", [("Storage", 1)])], ["Storage"],
        [("A", ⟨"n", "Amazon", "cc", "2024-08", "p"⟩)], [], []⟩
      [] [] []
      ⟨"A", "n", "Amazon", "cc", "p", "Storage", 1⟩
      ⟨"A", "n", "Amazon", "cc", "p", "Storage", 2⟩
      rfl rfl (by decide) rfl,
    (ingestion_duplicate_policy_spec.2.1 "cc"
      ⟨[("B", ⟨"B", "cat", "IBMCloud", false, "", "team"⟩)], [], [], [], [], []⟩
      ⟨[("B", ⟨"B", "cat", "IBMCloud", true, "", "team"⟩)],
        [("B", [("Storage", 3)])], [],
        [("B", ⟨"nm", "IBMCloud", "cc", "2024-08", "pay"⟩)], [], []⟩
      ⟨"B", "nm", "IBMCloud", "cc", "pay", "2024-08",
        [⟨"Block Storage for VPC", 1⟩, ⟨"Cloud Object Storage", 2⟩]⟩
      (by decide)
      (by
        simp [ibmcStep, skipAccountEntry, applySkipResult, ibmcIngest,
          addResource, bucketOf, alGet, alGetD, alSet, List.find?]
        norm_num)
      "Storage").trans
    (by
      simp [bucketOf]
      norm_num)⟩

/-- C10: during the augmenting IBM Cloud pass, an account that already has a
cost row (for instance created by the primary Cloudability pass) makes the
run abort with the fatal row-exists error rather than merging or summing —
if the entries before it process cleanly the error is precisely
`rowExistsMsg` for that account, and in any case the run fails; moreover a
successfully ingested (tracked) IBM Cloud account necessarily had no
pre-existing row. -/
theorem ibm_existing_row_policy_spec :
    (∀ (our : String) (st0 : IngestState) (l1 l2 : List IbmcResultsEntry)
        (e : IbmcResultsEntry),
      (alGet st0.accountsMetadata e.AccountID).isSome →
      (alGet st0.costCells e.AccountID).isSome →
      (∃ msg, getSheetDataFromIbmcloud (l1 ++ e :: l2) our st0 =
        .error msg) ∧
      (∀ st1,
        List.foldlM (ibmcStep our) { st0 with ignored := [] } l1 = .ok st1 →
        getSheetDataFromIbmcloud (l1 ++ e :: l2) our st0 =
          .error (rowExistsMsg e.AccountID))) ∧
    (∀ (our : String) (st st' : IngestState) (e : IbmcResultsEntry),
      (alGet st.accountsMetadata e.AccountID).isSome →
      ibmcStep our st e = .ok st' →
      alGet st.costCells e.AccountID = none) := by
  refine ⟨?_, ?_⟩
  · intro our st0 l1 l2 e htr hrow
    cases hres : List.foldlM (ibmcStep our) { st0 with ignored := [] } l1 with
    | error msg =>
      have hfull : getSheetDataFromIbmcloud (l1 ++ e :: l2) our st0 =
          .error msg := by
        unfold getSheetDataFromIbmcloud
        rw [List.foldlM_append, hres]
        rfl
      exact ⟨⟨msg, hfull⟩, fun st1 h1 => Except.noConfusion h1⟩
    | ok st1 =>
      have htr1 := ibmcFold_meta_isSome l1 _ st1 hres e.AccountID htr
      have hrow1 := ibmcFold_row_isSome l1 _ st1 hres e.AccountID hrow
      obtain ⟨m, hm⟩ := Option.isSome_iff_exists.mp htr1
      have hstep := @ibmcStep_rowExists our _ _ _ hm hrow1
      have hfull : getSheetDataFromIbmcloud (l1 ++ e :: l2) our st0 =
          .error (rowExistsMsg e.AccountID) := by
        unfold getSheetDataFromIbmcloud
        rw [List.foldlM_append, hres]
        have hbind : ((Except.ok st1 : Except String IngestState) >>=
            fun s => List.foldlM (ibmcStep our) s (e :: l2)) =
            List.foldlM (ibmcStep our) st1 (e :: l2) := rfl
        rw [hbind, List.foldlM_cons, hstep]
        rfl
      exact ⟨⟨_, hfull⟩, fun st1' h1 => hfull⟩
  · intro our st st' e htr hok
    obtain ⟨m, hm⟩ := Option.isSome_iff_exists.mp htr
    rw [ibmcStep_tracked hm] at hok
    have hfresh := (ibmcIngest_ok hok).1
    rwa [applySkipResult_costCells] at hfresh

/-- Witness for C10: an IBM Cloud entry for tracked account `"B"` whose cost
row already exists aborts with the row-exists fatal error. -/
theorem ibm_existing_row_policy_witness :
    getSheetDataFromIbmcloud
      [⟨"B", "nm", "IBMCloud", "cc", "pay", "2024-08", []⟩] "cc"
      ⟨[("B", ⟨"B", "cat", "IBMCloud", false, "", "team"⟩)],
       [("B", [("Storage", 5)])], [], [], [], []⟩
      = .error (rowExistsMsg "B") :=
  (ibm_existing_row_policy_spec.1 "cc"
    ⟨[("B", ⟨"B", "cat", "IBMCloud", false, "", "team"⟩)],
     [("B", [("Storage", 5)])], [], [], [], []⟩
    [] [] ⟨"B", "nm", "IBMCloud", "cc", "pay", "2024-08", []⟩
    (by decide) (by decide)).2 _ rfl

/-- C8 (counterexample): the claim says the "not tracked" warning is emitted
on the first sighting of every untracked account; but when the record's cost
center differs from the configured one, the first sighting adds the account
to the dedupe set and drops the record with NO warning.  Concretely, a
single-record Cloudability pull for untracked account `"X"` with cost center
`"otherCC"` (configured center `"ourCC"`) ends with an empty grid, `"X"` in
the dedupe set, and an empty log. -/
theorem untracked_warning_counterexample :
    getSheetDataFromCloudability
      [⟨"X", "nm", "Amazon", "otherCC", "p", "Storage", 1⟩] "ourCC" "d"
      ⟨[], [], [], [], [], []⟩ =
      .ok ⟨[], [], [], [], ["X"], []⟩ := rfl

/-- C8 (amended): a record whose account is absent from the directory
contributes nothing to the grid, the column set or the per-account metadata;
its account ID is added to the per-pass dedupe set on first sighting; and
the "not tracked" warning (naming the source/cost-center/provider/account/
name tuple) is emitted exactly on the first sighting of the account *and*
only when the record's cost center equals the configured cost center —
subsequent records for the same untracked account never warn. -/
theorem untracked_account_spec (our date : String) (st : IngestState)
    (e : ResultsEntry)
    (hm : alGet st.accountsMetadata e.AccountID = none) :
    (cldyStep our date st e).map
      (fun s => (s.costCells, s.columnHeads, s.metadata,
        s.accountsMetadata, s.ignored, s.logs)) =
    .ok (st.costCells, st.columnHeads, st.metadata, st.accountsMetadata,
      (if e.AccountID ∈ st.ignored then st.ignored
        else st.ignored ++ [e.AccountID]),
      st.logs ++
        (if e.AccountID ∉ st.ignored ∧ e.CostCenter = our then
          [notTrackedMsg "Cloudability" e.CostCenter e.CloudProvider
            e.AccountID e.AccountName]
        else [])) := by
  rw [cldyStep_untracked hm]
  unfold applySkipResult skipAccountEntry
  by_cases hi : e.AccountID ∈ st.ignored
  · simp [hi, Except.map]
  · by_cases hcc : e.CostCenter = our
    · simp [hi, hcc, Except.map]
    · simp [hi, hcc, Except.map]

/-- Witness for the amended C8: the first sighting of untracked account
`"Y"` with the matching cost center drops the record and emits exactly one
warning. -/
theorem untracked_account_witness :
    (cldyStep "cc" "d" ⟨[], [], [], [], [], []⟩
        ⟨"Y", "nm", "Amazon", "cc", "p", "Storage", 1⟩).map
      (fun s => (s.costCells, s.columnHeads, s.metadata,
        s.accountsMetadata, s.ignored, s.logs)) =
    .ok ([], [], [], [],
      (if "Y" ∈ ([] : List String) then [] else [] ++ ["Y"]),
      [] ++
        (if "Y" ∉ ([] : List String) ∧ "cc" = "cc" then
          [notTrackedMsg "Cloudability" "cc" "Amazon" "Y" "nm"]
        else [])) :=
  untracked_account_spec "cc" "d" ⟨[], [], [], [], [], []⟩
    ⟨"Y", "nm", "Amazon", "cc", "p", "Storage", 1⟩ rfl

/-! ## Shape language of the fixed-width account-ID patterns (C6) -/

/-- The language matched by the tail of a fixed-width group pattern: the
input decomposes into the given groups, each preceded by an optional single
hyphen, with nothing left over. -/
def tailShape (pred : Char → Bool) : List Nat → List Char → List String → Prop
  | [], cs, gs => cs = [] ∧ gs = []
  | n :: rest, cs, gs =>
    ∃ h g cs' gs', (h = [] ∨ h = ['-']) ∧ cs = h ++ g.toList ++ cs' ∧
      g.toList.length = n ∧ g.toList.all pred ∧ gs = g :: gs' ∧
      tailShape pred rest cs' gs'

/-- The language of the whole anchored pattern
`^(G{first})-?(G{sizes₀})-?…$` together with its captured groups. -/
def groupShape (pred : Char → Bool) (first : Nat) (rest : List Nat)
    (s : String) (gs : List String) : Prop :=
  ∃ g cs' gs', s.toList = g.toList ++ cs' ∧ g.toList.length = first ∧
    g.toList.all pred ∧ gs = g :: gs' ∧ tailShape pred rest cs' gs'

theorem takeGroup_sound {pred : Char → Bool} {n : Nat} {cs rest : List Char}
    {g : String} (h : takeGroup pred n cs = some (g, rest)) :
    cs = g.toList ++ rest ∧ g.toList.length = n ∧ g.toList.all pred := by
  simp only [takeGroup] at h
  split_ifs at h with hc
  simp only [Option.some.injEq, Prod.mk.injEq] at h
  obtain ⟨hg, hrest⟩ := h
  subst hg hrest
  exact ⟨(List.take_append_drop n cs).symm, hc.1, hc.2⟩

theorem takeGroup_complete {pred : Char → Bool} {n : Nat} (g : String)
    (rest : List Char) (hl : g.toList.length = n) (ha : g.toList.all pred) :
    takeGroup pred n (g.toList ++ rest) = some (g, rest) := by
  obtain ⟨gd⟩ := g
  simp only [takeGroup]
  rw [List.take_left' hl, List.drop_left' hl]
  simp only [hl, ha, and_self, if_true]
  rfl

theorem matchTail_sound {pred : Char → Bool} :
    ∀ (sizes : List Nat) (cs : List Char) (gs : List String),
      matchTail pred sizes cs = some gs → tailShape pred sizes cs gs := by
  intro sizes
  induction sizes with
  | nil =>
    intro cs gs h
    simp only [matchTail] at h
    split_ifs at h with hc
    simp only [Option.some.injEq] at h
    exact ⟨by simpa using hc, h.symm⟩
  | cons n rest ih =>
    intro cs gs h
    simp only [matchTail] at h
    rcases htg : takeGroup pred n
        (if cs.head? = some '-' then cs.tail else cs) with _ | gr
    · rw [htg] at h
      cases h
    · rw [htg, Option.some_bind] at h
      rcases hmt : matchTail pred rest gr.2 with _ | gs'
      · rw [hmt] at h
        cases h
      · rw [hmt, Option.map_some'] at h
        simp only [Option.some.injEq] at h
        have htg' : takeGroup pred n
            (if cs.head? = some '-' then cs.tail else cs) =
            some (gr.1, gr.2) := by rw [htg]
        obtain ⟨hcs, hlen, hall⟩ := takeGroup_sound htg'
        by_cases hh : cs.head? = some '-'
        · obtain ⟨t, ht⟩ := List.head?_eq_some_iff.mp hh
          refine ⟨['-'], gr.1, gr.2, gs', Or.inr rfl, ?_, hlen, hall,
            h.symm, ih _ _ hmt⟩
          rw [if_pos hh, ht] at hcs
          simp only [List.tail_cons] at hcs
          rw [ht, hcs]
          rfl
        · refine ⟨[], gr.1, gr.2, gs', Or.inl rfl, ?_, hlen, hall,
            h.symm, ih _ _ hmt⟩
          rw [if_neg hh] at hcs
          simpa using hcs

theorem matchTail_complete {pred : Char → Bool} (hpred : pred '-' = false) :
    ∀ (sizes : List Nat) (cs : List Char) (gs : List String),
      sizes.all (0 < ·) → tailShape pred sizes cs gs →
      matchTail pred sizes cs = some gs := by
  intro sizes
  induction sizes with
  | nil =>
    intro cs gs _ hs
    obtain ⟨hcs, hgs⟩ := hs
    subst hcs hgs
    rfl
  | cons n rest ih =>
    intro cs gs hpos hs
    obtain ⟨h, g, cs', gs', hopt, hcs, hlen, hall, hgs, htail⟩ := hs
    subst hcs hgs
    have hn : 0 < n := by
      simp only [List.all_cons, Bool.and_eq_true, decide_eq_true_eq] at hpos
      exact hpos.1
    have hrest : rest.all (0 < ·) = true := by
      simp only [List.all_cons, Bool.and_eq_true] at hpos
      exact hpos.2
    have hghead : ∃ c0 t0, g.toList = c0 :: t0 ∧ pred c0 = true := by
      rcases hgl : g.toList with _ | ⟨c0, t0⟩
      · rw [hgl] at hlen
        simp only [List.length_nil] at hlen
        omega
      · refine ⟨c0, t0, rfl, ?_⟩
        rw [hgl] at hall
        simp only [List.all_cons, Bool.and_eq_true] at hall
        exact hall.1
    obtain ⟨c0, t0, hgl, hc0⟩ := hghead
    simp only [matchTail]
    rcases hopt with hnil | hhyp
    · subst hnil
      have hc0ne : c0 ≠ '-' := by
        intro hcontra
        rw [hcontra, hpred] at hc0
        cases hc0
      have hhead : (([] : List Char) ++ g.toList ++ cs').head? ≠
          some '-' := by
        rw [List.nil_append, hgl]
        simp only [List.cons_append, List.head?_cons]
        exact fun hcontra => hc0ne (Option.some.inj hcontra)
      rw [if_neg hhead, List.nil_append,
        takeGroup_complete g cs' hlen hall, Option.some_bind,
        ih cs' gs' hrest htail, Option.map_some']
    · subst hhyp
      have hhead : ((['-'] : List Char) ++ g.toList ++ cs').head? =
          some '-' := rfl
      rw [if_pos hhead]
      have htl : ((['-'] : List Char) ++ g.toList ++ cs').tail =
          g.toList ++ cs' := rfl
      rw [htl, takeGroup_complete g cs' hlen hall, Option.some_bind,
        ih cs' gs' hrest htail, Option.map_some']

theorem matchGroups_sound {pred : Char → Bool} {first : Nat}
    {rest : List Nat} {s : String} {gs : List String}
    (h : matchGroups pred first rest s = some gs) :
    groupShape pred first rest s gs := by
  simp only [matchGroups] at h
  rcases htg : takeGroup pred first s.toList with _ | gr
  · rw [htg] at h
    cases h
  · rw [htg, Option.some_bind] at h
    rcases hmt : matchTail pred rest gr.2 with _ | gs'
    · rw [hmt] at h
      cases h
    · rw [hmt, Option.map_some'] at h
      simp only [Option.some.injEq] at h
      have htg' : takeGroup pred first s.toList = some (gr.1, gr.2) := by
        rw [htg]
      obtain ⟨hcs, hlen, hall⟩ := takeGroup_sound htg'
      exact ⟨gr.1, gr.2, gs', hcs, hlen, hall, h.symm,
        matchTail_sound rest gr.2 gs' hmt⟩

theorem matchGroups_complete {pred : Char → Bool} (hpred : pred '-' = false)
    {first : Nat} {rest : List Nat} {s : String} {gs : List String}
    (hpos : rest.all (0 < ·)) (h : groupShape pred first rest s gs) :
    matchGroups pred first rest s = some gs := by
  obtain ⟨g, cs', gs', hcs, hlen, hall, hgs, htail⟩ := h
  subst hgs
  simp only [matchGroups]
  rw [hcs, takeGroup_complete g cs' hlen hall, Option.some_bind,
    matchTail_complete hpred rest cs' gs' hpos htail, Option.map_some']

theorem string_toList_append (a b : String) :
    (a ++ b).toList = a.toList ++ b.toList := by
  simp [String.toList]

/-- C6 (counterexample): the claim describes the Azure shape as "32 hex
characters grouped 8-4-4-4-12", but the pattern accepts lowercase hex only:
`"ABCDEF01-2345-6789-ABCD-EF0123456789"` consists of 32 hex characters in
the right grouping, yet the directory rejects it as a fatal configuration
error. -/
theorem azure_uppercase_counterexample :
    (let azureId := "ABCDEF01-2345-6789-ABCD-EF0123456789"
     (azureId.toList.filter (· ≠ '-')).length = 32 ∧
      (azureId.toList.filter (· ≠ '-')).all
        (fun c => c.isDigit || ('a' ≤ c && c ≤ 'f') ||
          ('A' ≤ c && c ≤ 'F')) ∧
      azureId.toList.count '-' = 4 ∧
      canonicalAccountKey "Azure" azureId = .error (badIdMsg azureId)) :=
  ⟨by decide, by decide, by decide, rfl⟩

/-- C6 (amended): for every declared account of a provider with a fixed ID
shape (Amazon: 12 decimal digits grouped 4-4-4; Azure: 32 *lowercase* hex
characters grouped 8-4-4-4-12), the directory accepts the ID with or without
hyphens at the group boundaries and keys the entry by the re-hyphenated
canonical form; an ID not matching the (lowercase-hex) shape is a fatal
configuration error, and providers without a known shape use the ID
unchanged as the key. -/
theorem account_directory_id_spec :
    (∀ (g1 g2 g3 h1 h2 : String),
      (h1 = "" ∨ h1 = "-") → (h2 = "" ∨ h2 = "-") →
      g1.toList.length = 4 → g1.toList.all Char.isDigit →
      g2.toList.length = 4 → g2.toList.all Char.isDigit →
      g3.toList.length = 4 → g3.toList.all Char.isDigit →
      canonicalAccountKey "Amazon" (g1 ++ h1 ++ g2 ++ h2 ++ g3) =
        .ok (String.intercalate "-" [g1, g2, g3])) ∧
    (∀ (g1 g2 g3 g4 g5 h1 h2 h3 h4 : String),
      (h1 = "" ∨ h1 = "-") → (h2 = "" ∨ h2 = "-") →
      (h3 = "" ∨ h3 = "-") → (h4 = "" ∨ h4 = "-") →
      g1.toList.length = 8 → g1.toList.all isHexLowerCh →
      g2.toList.length = 4 → g2.toList.all isHexLowerCh →
      g3.toList.length = 4 → g3.toList.all isHexLowerCh →
      g4.toList.length = 4 → g4.toList.all isHexLowerCh →
      g5.toList.length = 12 → g5.toList.all isHexLowerCh →
      canonicalAccountKey "Azure"
          (g1 ++ h1 ++ g2 ++ h2 ++ g3 ++ h3 ++ g4 ++ h4 ++ g5) =
        .ok (String.intercalate "-" [g1, g2, g3, g4, g5])) ∧
    (∀ (id k : String), canonicalAccountKey "Amazon" id = .ok k →
      ∃ gs, groupShape Char.isDigit 4 [4, 4] id gs ∧
        k = String.intercalate "-" gs) ∧
    (∀ (id k : String), canonicalAccountKey "Azure" id = .ok k →
      ∃ gs, groupShape isHexLowerCh 8 [4, 4, 4, 12] id gs ∧
        k = String.intercalate "-" gs) ∧
    (∀ id : String, (¬∃ gs, groupShape Char.isDigit 4 [4, 4] id gs) →
      canonicalAccountKey "Amazon" id = .error (badIdMsg id)) ∧
    (∀ id : String, (¬∃ gs, groupShape isHexLowerCh 8 [4, 4, 4, 12] id gs) →
      canonicalAccountKey "Azure" id = .error (badIdMsg id)) ∧
    (∀ (provider id : String), accountIdPatterns provider = none →
      canonicalAccountKey provider id = .ok id) ∧
    (∀ (prov grp : String) (entry : AccountEntry),
      getAccountMetadata [(prov, [(grp, [entry])])] =
        (canonicalAccountKey (if prov = "aws" then "Amazon" else prov)
            entry.AccountID).map
          (fun key => [(key,
            ⟨entry.AccountID, entry.Category,
              (if prov = "aws" then "Amazon" else prov), false,
              entry.Description, grp⟩)])) := by
  have hdig : Char.isDigit '-' = false := by decide
  have hhex : isHexLowerCh '-' = false := by decide
  refine ⟨?_, ?_, ?_, ?_, ?_, ?_, ?_, ?_⟩
  · intro g1 g2 g3 h1 h2 hh1 hh2 hl1 ha1 hl2 ha2 hl3 ha3
    have hshape : groupShape Char.isDigit 4 [4, 4]
        (g1 ++ h1 ++ g2 ++ h2 ++ g3) [g1, g2, g3] := by
      refine ⟨g1, h1.toList ++ g2.toList ++ h2.toList ++ g3.toList,
        [g2, g3], ?_, hl1, ha1, rfl,
        h1.toList, g2, h2.toList ++ g3.toList, [g3], ?_, by simp, hl2, ha2,
        rfl,
        h2.toList, g3, [], [], ?_, by simp, hl3, ha3, rfl, rfl, rfl⟩
      · simp [string_toList_append]
      · rcases hh1 with h | h <;> subst h
        · exact Or.inl rfl
        · exact Or.inr rfl
      · rcases hh2 with h | h <;> subst h
        · exact Or.inl rfl
        · exact Or.inr rfl
    simp only [canonicalAccountKey, accountIdPatterns]
    rw [matchGroups_complete hdig (by decide) hshape]
  · intro g1 g2 g3 g4 g5 h1 h2 h3 h4 hh1 hh2 hh3 hh4 hl1 ha1 hl2 ha2 hl3
      ha3 hl4 ha4 hl5 ha5
    have hopt : ∀ h : String, (h = "" ∨ h = "-") →
        (h.toList = [] ∨ h.toList = ['-']) := by
      intro h hh
      rcases hh with h' | h' <;> subst h'
      · exact Or.inl rfl
      · exact Or.inr rfl
    have hshape : groupShape isHexLowerCh 8 [4, 4, 4, 12]
        (g1 ++ h1 ++ g2 ++ h2 ++ g3 ++ h3 ++ g4 ++ h4 ++ g5)
        [g1, g2, g3, g4, g5] := by
      refine ⟨g1, h1.toList ++ g2.toList ++ h2.toList ++ g3.toList ++
        h3.toList ++ g4.toList ++ h4.toList ++ g5.toList,
        [g2, g3, g4, g5], ?_, hl1, ha1, rfl,
        h1.toList, g2, h2.toList ++ g3.toList ++ h3.toList ++ g4.toList ++
          h4.toList ++ g5.toList, [g3, g4, g5], hopt h1 hh1, by simp, hl2,
          ha2, rfl,
        h2.toList, g3, h3.toList ++ g4.toList ++ h4.toList ++ g5.toList,
          [g4, g5], hopt h2 hh2, by simp, hl3, ha3, rfl,
        h3.toList, g4, h4.toList ++ g5.toList, [g5], hopt h3 hh3, by simp,
          hl4, ha4, rfl,
        h4.toList, g5, [], [], hopt h4 hh4, by simp, hl5, ha5, rfl, rfl,
        rfl⟩
      simp [string_toList_append]
    simp only [canonicalAccountKey, accountIdPatterns]
    rw [matchGroups_complete hhex (by decide) hshape]
  · intro id k h
    simp only [canonicalAccountKey, accountIdPatterns] at h
    rcases hmg : matchGroups Char.isDigit 4 [4, 4] id with _ | gs
    · rw [hmg] at h
      cases h
    · rw [hmg] at h
      exact ⟨gs, matchGroups_sound hmg, (Except.ok.inj h).symm⟩
  · intro id k h
    simp only [canonicalAccountKey, accountIdPatterns] at h
    rcases hmg : matchGroups isHexLowerCh 8 [4, 4, 4, 12] id with _ | gs
    · rw [hmg] at h
      cases h
    · rw [hmg] at h
      exact ⟨gs, matchGroups_sound hmg, (Except.ok.inj h).symm⟩
  · intro id hno
    simp only [canonicalAccountKey, accountIdPatterns]
    rcases hmg : matchGroups Char.isDigit 4 [4, 4] id with _ | gs
    · rfl
    · exact absurd ⟨gs, matchGroups_sound hmg⟩ hno
  · intro id hno
    simp only [canonicalAccountKey, accountIdPatterns]
    rcases hmg : matchGroups isHexLowerCh 8 [4, 4, 4, 12] id with _ | gs
    · rfl
    · exact absurd ⟨gs, matchGroups_sound hmg⟩ hno
  · intro provider id hpat
    simp only [canonicalAccountKey, hpat]
  · intro prov grp entry
    rcases hck : canonicalAccountKey (if prov = "aws" then "Amazon" else prov)
        entry.AccountID with msg | key
    · simp [getAccountMetadata, hck, Except.map]
    · simp [getAccountMetadata, hck, Except.map, alSet]

/-- Witness for C6: the Amazon ID `"1234-56789012"` (hyphen at the first
boundary only) is accepted and keyed `"1234-5678-9012"`, and the
shapeless provider `"gcp"` passes an ID through unchanged. -/
theorem account_directory_id_witness :
    canonicalAccountKey "Amazon" ("1234" ++ "-" ++ "5678" ++ "" ++ "9012") =
      .ok (String.intercalate "-" ["1234", "5678", "9012"]) ∧
    canonicalAccountKey "gcp" "my-project-42" = .ok "my-project-42" :=
  ⟨account_directory_id_spec.1 "1234" "5678" "9012" "-" ""
    (Or.inr rfl) (Or.inl rfl) (by decide) (by decide) (by decide)
    (by decide) (by decide) (by decide),
   account_directory_id_spec.2.2.2.2.2.2.1 "gcp" "my-project-42" rfl⟩

/-- The cell predicate of the anchor scan: a string cell whose text contains
the new sheet's name. -/
def anchorMatches (newSheetName : String) (cell : Option String) : Bool :=
  match cell with
  | some str => stringContains str newSheetName
  | none => false

/-- `findCellMatch` finds the row-major first match: if every row before `r`
has no matching cell and row `r`'s first matching cell is at column `c`,
the scan returns `(r, c)`. -/
theorem findCellMatch_first {name : String} :
    ∀ (cells : List (List (Option String))) (r c : Nat),
      (∀ r', r' < r → (cells.getD r' []).findIdx? (anchorMatches name) =
        none) →
      (cells.getD r []).findIdx? (anchorMatches name) = some c →
      r < cells.length →
      findCellMatch name cells = some (r, c) := by
  intro cells
  induction cells with
  | nil =>
    intro r c _ _ hr
    simp at hr
  | cons row rest ih =>
    intro r c hprev hrow hr
    cases r with
    | zero =>
      simp only [List.getD_cons_zero] at hrow
      unfold findCellMatch
      rw [show (fun cell => match cell with
        | some str => stringContains str name
        | none => false) = anchorMatches name from rfl, hrow]
    | succ r' =>
      have h0 : row.findIdx? (anchorMatches name) = none := by
        have := hprev 0 (Nat.succ_pos r')
        simpa using this
      unfold findCellMatch
      rw [show (fun cell => match cell with
        | some str => stringContains str name
        | none => false) = anchorMatches name from rfl, h0,
        ih r' c (fun r'' hr'' => by
          have := hprev (r'' + 1) (Nat.succ_lt_succ hr'')
          simpa using this) (by simpa using hrow)
          (by simpa using hr)]
      rfl

/-- C7 (counterexample): the claim says the anchor range spans exactly as
many rows as the materialized table has data rows (header excluded).  For a
materialized table of 4 rows (3 data rows), the caller passes
`rowCount = 4` and the returned range spans `EndRowIndex - StartRowIndex
 = 5` rows, not 3. -/
theorem anchor_range_counterexample :
    getNewSheetReference [[some "Raw Data 08/2024"]] 7 "08/2024" 4 =
      some ⟨7, 0, 1, 1, 6⟩ ∧
    ((6 : Int) - 1 = 5 ∧ (5 : Int) ≠ 3) := ⟨rfl, by decide⟩

/-- C7 (amended): the indirect-reference anchor range starts in the column
of the row-major-first cell whose text contains the target block name, in
the row immediately below that cell; it spans `rowCount + 1` rows where
`rowCount` is the full materialized row count passed by the caller (header
row included) — i.e. the table's data-row count plus two — and is one
column wide; if no matching cell is found the run aborts fatally. -/
theorem anchor_range_spec :
    (∀ (cells : List (List (Option String))) (sid : Int) (name : String)
        (rowCount r c : Nat),
      (∀ r', r' < r → (cells.getD r' []).findIdx? (anchorMatches name) =
        none) →
      (cells.getD r []).findIdx? (anchorMatches name) = some c →
      r < cells.length →
      getNewSheetReference cells sid name rowCount =
        some ⟨sid, (c : Int), (r : Int) + 1, (c : Int) + 1,
          ((r : Int) + 1) + (rowCount : Int) + 1⟩) ∧
    (∀ (cells : List (List (Option String))) (sid : Int) (name : String)
        (rowCount : Nat) (gr : GridRange),
      getNewSheetReference cells sid name rowCount = some gr →
      gr.EndRowIndex - gr.StartRowIndex = (rowCount : Int) + 1 ∧
      gr.EndColumnIndex - gr.StartColumnIndex = 1) ∧
    (∀ (cells : List (List (Option String))) (sid : Int) (name : String)
        (sheetData : List (List CellData)),
      getNewSheetReference cells sid name sheetData.length = none →
      resolveMainSheetRef cells sid name sheetData =
        .error ("No reference to \"" ++ name ++
          "\" found in main sheet")) := by
  refine ⟨?_, ?_, ?_⟩
  · intro cells sid name rowCount r c hprev hrow hr
    unfold getNewSheetReference
    rw [findCellMatch_first cells r c hprev hrow hr]
    rfl
  · intro cells sid name rowCount gr h
    unfold getNewSheetReference at h
    rcases hfm : findCellMatch name cells with _ | rc
    · rw [hfm] at h
      cases h
    · rw [hfm, Option.map_some'] at h
      obtain rfl := Option.some.inj h
      constructor
      · simp only
        ring
      · simp only
        ring
  · intro cells sid name sheetData h
    unfold resolveMainSheetRef
    rw [h]

/-- Witness for the amended C7: a 2×2 main sheet whose matching cell sits at
row 0, column 1; with a 4-row materialized table the anchor range is rows
1–5 (5 rows) in column 1. -/
theorem anchor_range_witness :
    getNewSheetReference
      [[some "x", some "Raw Data 08/2024"], [some "y", none]] 7
      "08/2024" 4 =
      some ⟨7, (1 : Int), (0 : Int) + 1, (1 : Int) + 1,
        (((0 : Nat) : Int) + 1) + ((4 : Nat) : Int) + 1⟩ :=
  anchor_range_spec.1
    [[some "x", some "Raw Data 08/2024"], [some "y", none]] 7 "08/2024" 4
    0 1 (fun r' hr' => absurd hr' (Nat.not_lt_zero r')) (by decide)
    (by decide)

/-! ## Stable-sort cascade lemmas for the Sheet Row Materializer -/

/-- The sort key read by `sortOutput` from column `col` of a row. -/
def rowKey (col : Nat) (row : List CellData) : String :=
  (row.getD col .empty).strVal

/-- One stable key-sort pass refines a pairwise invariant: after sorting by
the key `k`, adjacent-order pairs are either strictly key-ordered or key-tied
and related by the pre-sort invariant `R` (stability). -/
theorem orderedInsert_key_pairwise {α κ : Type} [LinearOrder κ]
    (k : α → κ) (R : α → α → Prop) (x : α) :
    ∀ l : List α, l.Sorted (fun a b => k a ≤ k b) →
      l.Pairwise (fun a b => k a < k b ∨ (k a = k b ∧ R a b)) →
      (∀ b ∈ l, R x b) →
      (List.orderedInsert (fun a b => k a ≤ k b) x l).Pairwise
        (fun a b => k a < k b ∨ (k a = k b ∧ R a b)) := by
  intro l
  induction l with
  | nil =>
    intro _ _ _
    simp [List.orderedInsert]
  | cons b t ih =>
    intro hsort hpair hR
    simp only [List.orderedInsert]
    by_cases hxb : k x ≤ k b
    · rw [if_pos hxb]
      refine List.pairwise_cons.mpr ⟨?_, hpair⟩
      intro y hy
      rcases List.mem_cons.mp hy with rfl | hy'
      · rcases lt_or_eq_of_le hxb with hlt | heq
        · exact Or.inl hlt
        · exact Or.inr ⟨heq, hR y hy⟩
      · have hby : k b ≤ k y := List.rel_of_sorted_cons hsort y hy'
        rcases lt_or_eq_of_le (le_trans hxb hby) with hlt | heq
        · exact Or.inl hlt
        · exact Or.inr ⟨heq, hR y hy⟩
    · rw [if_neg hxb]
      have hbx : k b < k x := lt_of_not_le hxb
      refine List.pairwise_cons.mpr ⟨?_, ?_⟩
      · intro y hy
        rcases (List.mem_orderedInsert _).mp hy with rfl | hy'
        · exact Or.inl hbx
        · exact (List.pairwise_cons.mp hpair).1 y hy'
      · exact ih hsort.of_cons (List.pairwise_cons.mp hpair).2
          (fun y hy => hR y (List.mem_cons_of_mem _ hy))

theorem insertionSort_key_pairwise {α κ : Type} [LinearOrder κ]
    (k : α → κ) (R : α → α → Prop) :
    ∀ l : List α, l.Pairwise R →
      (List.insertionSort (fun a b => k a ≤ k b) l).Pairwise
        (fun a b => k a < k b ∨ (k a = k b ∧ R a b)) := by
  haveI : IsTotal α (fun a b => k a ≤ k b) := ⟨fun a b => le_total _ _⟩
  haveI : IsTrans α (fun a b => k a ≤ k b) :=
    ⟨fun _ _ _ hab hbc => le_trans hab hbc⟩
  intro l
  induction l with
  | nil =>
    intro _
    simp [List.insertionSort]
  | cons x t ih =>
    intro hp
    simp only [List.insertionSort]
    exact orderedInsert_key_pairwise k R x _
      (List.sorted_insertionSort _ t) (ih hp.of_cons)
      (fun y hy => (List.pairwise_cons.mp hp).1 y
        ((List.perm_insertionSort _ t).mem_iff.mp hy))

theorem sortOutput_perm (l : List (List CellData)) (c : Nat) :
    List.Perm (sortOutput l c) l :=
  List.perm_insertionSort _ l

theorem sortOutput_pairwise (c : Nat)
    (R : List CellData → List CellData → Prop)
    (l : List (List CellData)) (h : l.Pairwise R) :
    (sortOutput l c).Pairwise
      (fun a b => rowKey c a < rowKey c b ∨
        (rowKey c a = rowKey c b ∧ R a b)) :=
  insertionSort_key_pairwise (rowKey c) R l h

/-! ## Column indices of the materializer -/

theorem findIdx_team (cats : List String) :
    (fixedColumnHeads ++ cats).findIdx (· == "Team") = 0 := by
  simp [fixedColumnHeads, List.findIdx_cons]

theorem findIdx_cloudProvider (cats : List String) :
    (fixedColumnHeads ++ cats).findIdx (· == "Cloud Provider") = 2 := by
  simp [fixedColumnHeads, List.findIdx_cons]

theorem findIdx_accountId (cats : List String) :
    (fixedColumnHeads ++ cats).findIdx (· == "Account ID") = 6 := by
  simp [fixedColumnHeads, List.findIdx_cons]

theorem findIdx_total (cats : List String) :
    (fixedColumnHeads ++ cats).findIdx (· == "TOTAL") = 7 := by
  simp [fixedColumnHeads, List.findIdx_cons]

/-- Structure of the materializer: the header row first, then the rows built
from the grid, stable-sorted by Account ID (column 6), then Cloud Provider
(column 2), then Team (column 0), and finally the TOTAL formulas (column 7)
assigned from the post-sort positions. -/
theorem getSheetFromCostCells_eq (costCells : List (String × List (String × ℚ)))
    (columnHeadsSet : List String) (am : String → AccountMetadata)
    (md : String → ProviderAccountMetadata) :
    getSheetFromCostCells costCells columnHeadsSet am md =
      ((fixedColumnHeads ++ sortedKeys columnHeadsSet).map CellData.str) ::
        setTotals 7 8 ((fixedColumnHeads ++ sortedKeys columnHeadsSet).length - 1)
          (sortOutput (sortOutput (sortOutput
            (buildDataRows costCells
              (fixedColumnHeads ++ sortedKeys columnHeadsSet) am md) 6) 2)
            0) := by
  simp only [getSheetFromCostCells]
  rw [findIdx_team, findIdx_cloudProvider, findIdx_accountId, findIdx_total]
  rfl

/-- The final row order required by the three cascading stable sorts:
team-major (column 0), provider-minor (column 2), account-ID-minor-minor
(column 6), with full ties related by the pre-sort invariant `R`. -/
def lexRowOrder (R : List CellData → List CellData → Prop)
    (a b : List CellData) : Prop :=
  rowKey 0 a < rowKey 0 b ∨ (rowKey 0 a = rowKey 0 b ∧
    (rowKey 2 a < rowKey 2 b ∨ (rowKey 2 a = rowKey 2 b ∧
      (rowKey 6 a < rowKey 6 b ∨ (rowKey 6 a = rowKey 6 b ∧ R a b)))))

/-- C5: the materialized data rows (the header row stays first) are produced
by three cascading stable sorts in reverse priority order — by Account ID
(column 6), then provider label (column 2), then team (column 0) — and any
such cascade yields a permutation of its input whose final order is
team-major, provider-minor, account-ID-minor-minor, with rows tied on all
three keys still related by any invariant `R` that held pairwise on the
input (in particular the input's relative order). -/
theorem row_sort_order_spec :
    (∀ (costCells : List (String × List (String × ℚ)))
        (columnHeadsSet : List String) (am : String → AccountMetadata)
        (md : String → ProviderAccountMetadata),
      getSheetFromCostCells costCells columnHeadsSet am md =
        ((fixedColumnHeads ++ sortedKeys columnHeadsSet).map CellData.str) ::
          setTotals 7 8
            ((fixedColumnHeads ++ sortedKeys columnHeadsSet).length - 1)
            (sortOutput (sortOutput (sortOutput
              (buildDataRows costCells
                (fixedColumnHeads ++ sortedKeys columnHeadsSet) am md) 6) 2)
              0)) ∧
    (∀ (rows : List (List CellData))
        (R : List CellData → List CellData → Prop),
      rows.Pairwise R →
      List.Perm (sortOutput (sortOutput (sortOutput rows 6) 2) 0) rows ∧
      (sortOutput (sortOutput (sortOutput rows 6) 2) 0).Pairwise
        (lexRowOrder R)) := by
  refine ⟨getSheetFromCostCells_eq, fun rows R h => ⟨?_, ?_⟩⟩
  · exact ((sortOutput_perm _ 0).trans
      ((sortOutput_perm _ 2).trans (sortOutput_perm _ 6)))
  · exact sortOutput_pairwise 0 _ _
      (sortOutput_pairwise 2 _ _ (sortOutput_pairwise 6 R rows h))

/-- Witness for C5: the cascade on two concrete one-cell rows (same team,
same provider, distinct account IDs, given in descending ID order) swaps
them into ascending ID order; the hypotheses are discharged on the trivial
invariant. -/
theorem row_sort_order_witness :
    List.Perm
      (sortOutput (sortOutput (sortOutput
        [[CellData.str "b"], [CellData.str "a"]] 6) 2) 0)
      [[CellData.str "b"], [CellData.str "a"]] ∧
    (sortOutput (sortOutput (sortOutput
      [[CellData.str "b"], [CellData.str "a"]] 6) 2) 0).Pairwise
      (lexRowOrder (fun _ _ => True)) :=
  (row_sort_order_spec.2 [[CellData.str "b"], [CellData.str "a"]]
    (fun _ _ => True) (by simp))

/-! ## Evaluation of the totals-formula range (C4) -/

/-- Evaluate a contiguous cell range `startCol..endCol` of a single row by
summing the numeric cells (the semantics of the rendered
`=SUM(<c1><r>:<c2><r>)` restricted to that row). -/
def evalRowRange (row : List CellData) (startCol endCol : Nat) : ℚ :=
  ((List.range (endCol + 1 - startCol)).map
    (fun j => (row.getD (startCol + j) .empty).numVal)).sum

theorem map_range_getD {α : Type} (d : α) :
    ∀ l : List α, (List.range l.length).map (fun j => l.getD j d) = l := by
  intro l
  induction l with
  | nil => rfl
  | cons x t ih =>
    rw [List.length_cons, List.range_succ_eq_map, List.map_cons,
      List.map_map]
    have hcomp : ((fun j => (x :: t).getD j d) ∘ Nat.succ) =
        fun j => t.getD j d := by
      funext j
      simp [List.getD_cons_succ]
    rw [hcomp, ih]
    rfl

theorem map_range_getD_comp {α β : Type} (d : α) (g : α → β)
    (l : List α) :
    (List.range l.length).map (fun j => g (l.getD j d)) = l.map g := by
  have h := congrArg (List.map g) (map_range_getD d l)
  rw [List.map_map] at h
  exact h

/-- Overwriting the TOTAL column (index 7) does not change the value of the
category range, which starts at column 8. -/
theorem evalRowRange_set_seven (row : List CellData) (x : CellData)
    (e : Nat) : evalRowRange (row.set 7 x) 8 e = evalRowRange row 8 e := by
  unfold evalRowRange
  congr 1
  apply List.map_congr_left
  intro j _
  rw [List.getD_eq_getElem?_getD, List.getElem?_set_ne (by omega),
    ← List.getD_eq_getElem?_getD]

/-- Accessing the `i`-th row of the totals pass. -/
theorem setTotals_getD (tc fixed lastCol : Nat)
    (rows : List (List CellData)) (i : Nat) (hi : i < rows.length) :
    (setTotals tc fixed lastCol rows).getD i [] =
      (rows.getD i []).set tc
        (.formula (getTotalsFormula (i + 1) fixed lastCol)) := by
  unfold setTotals
  rw [List.getD_eq_getElem?_getD, List.getElem?_mapIdx,
    List.getElem?_eq_getElem hi, Option.map_some', Option.getD_some,
    List.getD_eq_getElem?_getD, List.getElem?_eq_getElem hi,
    Option.getD_some]

/-- Evaluating the category range of a built data row yields, for each
category column in order, the grid value for that account (absent entries
contributing zero). -/
theorem evalRowRange_builtRow (cats : List String) (a : String)
    (dr : List (String × ℚ)) (am : String → AccountMetadata)
    (md : String → ProviderAccountMetadata)
    (hdisj : ∀ c ∈ cats, c ∉ fixedColumnHeads) :
    evalRowRange ((fixedColumnHeads ++ cats).map (cellForKey a dr am md)) 8
      (7 + cats.length) =
    (cats.map (fun c => alGetD dr c 0)).sum := by
  unfold evalRowRange
  have hlen : 7 + cats.length + 1 - 8 = cats.length := by omega
  rw [hlen]
  have key : ∀ j ∈ List.range cats.length,
      (((fixedColumnHeads ++ cats).map (cellForKey a dr am md)).getD (8 + j)
        .empty).numVal =
      CellData.numVal (cellForKey a dr am md (cats.getD j "")) := by
    intro j hj
    have hjlt : j < cats.length := List.mem_range.mp hj
    have hcat : cats[j]? = some (cats.getD j "") := by
      simp [List.getD_eq_getElem?_getD, List.getElem?_eq_getElem hjlt]
    rw [List.getD_eq_getElem?_getD, List.getElem?_map,
      List.getElem?_append_right (by simp [fixedColumnHeads])]
    have h8 : 8 + j - fixedColumnHeads.length = j := by
      simp [fixedColumnHeads]
    rw [h8, hcat, Option.map_some', Option.getD_some]
  have step1 : (List.range cats.length).map
      (fun j => CellData.numVal (cellForKey a dr am md (cats.getD j ""))) =
      cats.map (fun c => CellData.numVal (cellForKey a dr am md c)) :=
    map_range_getD_comp "" (fun c => CellData.numVal (cellForKey a dr am md c)) cats
  rw [List.map_congr_left key, step1]
  apply congrArg
  apply List.map_congr_left
  intro c hc
  have hne := hdisj c hc
  simp only [fixedColumnHeads, List.mem_cons, List.not_mem_nil, or_false,
    not_or] at hne
  obtain ⟨h1, h2, h3, h4, h5, h6, h7, h8'⟩ := hne
  simp only [Function.comp_apply, cellForKey, if_neg h8', if_neg h1,
    if_neg h2, if_neg h3, if_neg h5, if_neg h4, if_neg h7, if_neg h6,
    CellData.numVal]

/-- Summing the per-category lookups over a duplicate-free category list
covering the account's grid row equals the sum of the row's entries. -/
theorem sum_alGetD :
    ∀ (dr : List (String × ℚ)) (set : List String), set.Nodup →
      (dr.map Prod.fst).Nodup → (∀ p ∈ dr, p.1 ∈ set) →
      (set.map (fun c => alGetD dr c 0)).sum = (dr.map Prod.snd).sum := by
  intro dr
  induction dr with
  | nil =>
    intro set _ _ _
    simp [alGetD, alGet_nil]
  | cons p dt ih =>
    intro set hset hkeys hsub
    obtain ⟨k, v⟩ := p
    have hk : k ∈ set := hsub (k, v) (List.mem_cons_self _ _)
    have hperm := List.perm_cons_erase hk
    rw [(hperm.map (fun c => alGetD ((k, v) :: dt) c 0)).sum_eq,
      List.map_cons, List.sum_cons]
    have hgk : alGetD ((k, v) :: dt) k 0 = v := by
      rw [alGetD, alGet_cons]
      simp
    have hrest : ∀ c ∈ set.erase k,
        alGetD ((k, v) :: dt) c 0 = alGetD dt c 0 := by
      intro c hc
      have hcne : c ≠ k := (hset.mem_erase_iff.mp hc).1
      rw [alGetD, alGet_cons, if_neg (fun hh => hcne hh.symm), ← alGetD]
    have hkeyhd : k ∉ dt.map Prod.fst := by
      have := hkeys
      simp only [List.map_cons, List.nodup_cons] at this
      exact this.1
    have hkeytl : (dt.map Prod.fst).Nodup := by
      have := hkeys
      simp only [List.map_cons, List.nodup_cons] at this
      exact this.2
    rw [List.map_congr_left hrest, hgk,
      ih (set.erase k) (hset.erase k) hkeytl ?_]
    · simp
    · intro q hq
      refine hset.mem_erase_iff.mpr ⟨?_, hsub q (List.mem_cons_of_mem _ hq)⟩
      intro hqk
      exact hkeyhd (hqk ▸ List.mem_map_of_mem Prod.fst hq)

/-- C4: in every materialized sheet, the `i`-th data row (after the header,
which is row 0) carries in the fixed TOTAL column (index 7) the formula
`getTotalsFormula (i+1) 8 (7+n)` — generated after sorting, with both
endpoints of the rendered `=SUM(I<r>:<c><r>)` range on that row's own index
and the range spanning exactly the contiguous category columns, from the
first column after the fixed metadata prefix (8) to the last column (7+n)
for `n` category columns; evaluating that range on the row is unchanged by
the TOTAL write, each data row of the sorted block is one of the built
per-account rows, evaluating a built row's range sums the account's
per-category grid values in category order (absent categories contributing
zero), and for a duplicate-free category set covering the account's row that
sum equals the account's total grid sum. -/
theorem totals_formula_spec :
    (∀ (cc : List (String × List (String × ℚ))) (set : List String)
        (am : String → AccountMetadata)
        (md : String → ProviderAccountMetadata) (i : Nat),
      i < cc.length →
      ((getSheetFromCostCells cc set am md).getD (i + 1) []).getD 7 .empty =
        .formula (getTotalsFormula (i + 1) 8 (7 + (sortedKeys set).length)) ∧
      evalRowRange ((getSheetFromCostCells cc set am md).getD (i + 1) []) 8
          (7 + (sortedKeys set).length) =
        evalRowRange ((sortOutput (sortOutput (sortOutput
          (buildDataRows cc (fixedColumnHeads ++ sortedKeys set) am md) 6) 2)
          0).getD i []) 8 (7 + (sortedKeys set).length)) ∧
    (∀ (cc : List (String × List (String × ℚ))) (set : List String)
        (am : String → AccountMetadata)
        (md : String → ProviderAccountMetadata) (row : List CellData),
      row ∈ sortOutput (sortOutput (sortOutput
        (buildDataRows cc (fixedColumnHeads ++ sortedKeys set) am md) 6) 2)
        0 →
      row ∈ buildDataRows cc (fixedColumnHeads ++ sortedKeys set) am md) ∧
    (∀ (a : String) (dr : List (String × ℚ))
        (am : String → AccountMetadata)
        (md : String → ProviderAccountMetadata) (cats : List String),
      (∀ c ∈ cats, c ∉ fixedColumnHeads) →
      evalRowRange ((fixedColumnHeads ++ cats).map (cellForKey a dr am md)) 8
          (7 + cats.length) =
        (cats.map (fun c => alGetD dr c 0)).sum) ∧
    (∀ (dr : List (String × ℚ)) (set : List String), set.Nodup →
      (dr.map Prod.fst).Nodup → (∀ p ∈ dr, p.1 ∈ set) →
      ((sortedKeys set).map (fun c => alGetD dr c 0)).sum =
        (dr.map Prod.snd).sum) := by
  refine ⟨?_, ?_, ?_, ?_⟩
  · intro cc set am md i hi
    have hlenb : (buildDataRows cc (fixedColumnHeads ++ sortedKeys set)
        am md).length = cc.length := List.length_map _ _
    have hlen3 : (sortOutput (sortOutput (sortOutput
        (buildDataRows cc (fixedColumnHeads ++ sortedKeys set) am md) 6) 2)
        0).length = cc.length := by
      rw [(sortOutput_perm _ 0).length_eq, (sortOutput_perm _ 2).length_eq,
        (sortOutput_perm _ 6).length_eq, hlenb]
    have hi3 : i < (sortOutput (sortOutput (sortOutput
        (buildDataRows cc (fixedColumnHeads ++ sortedKeys set) am md) 6) 2)
        0).length := by rw [hlen3]; exact hi
    have hlc : (fixedColumnHeads ++ sortedKeys set).length - 1 =
        7 + (sortedKeys set).length := by
      simp [fixedColumnHeads]
      omega
    have hmem : (sortOutput (sortOutput (sortOutput
        (buildDataRows cc (fixedColumnHeads ++ sortedKeys set) am md) 6) 2)
        0).getD i [] ∈ sortOutput (sortOutput (sortOutput
        (buildDataRows cc (fixedColumnHeads ++ sortedKeys set) am md) 6) 2)
        0 := by
      rw [List.getD_eq_getElem?_getD, List.getElem?_eq_getElem hi3,
        Option.getD_some]
      exact List.getElem_mem hi3
    have hmemb := (((sortOutput_perm _ 0).trans
      ((sortOutput_perm _ 2).trans (sortOutput_perm _ 6))).mem_iff).mp hmem
    obtain ⟨p, _, hrow⟩ := List.mem_map.mp hmemb
    have hrowlen : ((sortOutput (sortOutput (sortOutput
        (buildDataRows cc (fixedColumnHeads ++ sortedKeys set) am md) 6) 2)
        0).getD i []).length = 8 + (sortedKeys set).length := by
      rw [← hrow, List.length_map]
      simp [fixedColumnHeads]
      omega
    rw [getSheetFromCostCells_eq, List.getD_cons_succ,
      setTotals_getD 7 8 _ _ i hi3, hlc]
    constructor
    · rw [List.getD_eq_getElem?_getD,
        List.getElem?_set_self (by rw [hrowlen]; omega), Option.getD_some]
    · exact evalRowRange_set_seven _ _ _
  · intro cc set am md row h
    exact (((sortOutput_perm _ 0).trans
      ((sortOutput_perm _ 2).trans (sortOutput_perm _ 6))).mem_iff).mp h
  · exact fun a dr am md cats hdisj =>
      evalRowRange_builtRow cats a dr am md hdisj
  · intro dr set hset hkeys hsub
    have hperm : List.Perm (sortedKeys set) set :=
      List.perm_insertionSort _ set
    rw [(hperm.map (fun c => alGetD dr c 0)).sum_eq]
    exact sum_alGetD dr set hset hkeys hsub

/-- Witness for C4 at a one-account, one-category grid: the first data row's
TOTAL cell is `=SUM(I2:I2)` (row 2, the row's own index, category columns
8..8) and the range evaluates to the grid entry 5. -/
theorem totals_formula_witness :
    ((getSheetFromCostCells [("a", [("S", (5 : ℚ))])] ["S"]
        (fun aid => ⟨aid, "cat", "p", false, "", "t"⟩)
        (fun _ => ⟨"n", "p", "cc", "d", "pay"⟩)).getD 1 []).getD 7 .empty =
      .formula (getTotalsFormula 1 8 (7 + (sortedKeys ["S"]).length)) ∧
    evalRowRange ((fixedColumnHeads ++ ["S"]).map
        (cellForKey "a" [("S", (5 : ℚ))]
          (fun aid => ⟨aid, "cat", "p", false, "", "t"⟩)
          (fun _ => ⟨"n", "p", "cc", "d", "pay"⟩))) 8 (7 + (["S"]).length) =
      ((["S"]).map (fun c => alGetD [("S", (5 : ℚ))] c 0)).sum :=
  ⟨(totals_formula_spec.1 [("a", [("S", (5 : ℚ))])] ["S"]
      (fun aid => ⟨aid, "cat", "p", false, "", "t"⟩)
      (fun _ => ⟨"n", "p", "cc", "d", "pay"⟩) 0 (by decide)).1,
   totals_formula_spec.2.2.1 "a" [("S", (5 : ℚ))]
      (fun aid => ⟨aid, "cat", "p", false, "", "t"⟩)
      (fun _ => ⟨"n", "p", "cc", "d", "pay"⟩) ["S"] (by decide)⟩

/-! ## Determinism of the materializer (C9) -/

theorem pairwise_trivial {α : Type} :
    ∀ l : List α, l.Pairwise (fun _ _ => True) := by
  intro l
  induction l with
  | nil => exact List.Pairwise.nil
  | cons x t ih => exact List.Pairwise.cons (fun _ _ => trivial) ih

theorem lexRowOrder_false_asymm {a b : List CellData} :
    lexRowOrder (fun _ _ => False) a b →
    lexRowOrder (fun _ _ => False) b a → False := by
  unfold lexRowOrder
  intro h1 h2
  rcases h1 with h1 | ⟨e1, h1⟩
  · rcases h2 with h2 | ⟨e2, _⟩
    · exact lt_asymm h1 h2
    · rw [e2] at h1
      exact lt_irrefl _ h1
  · rcases h2 with h2 | ⟨e2, h2⟩
    · rw [e1] at h2
      exact lt_irrefl _ h2
    · rcases h1 with h1 | ⟨f1, h1⟩
      · rcases h2 with h2 | ⟨f2, _⟩
        · exact lt_asymm h1 h2
        · rw [f2] at h1
          exact lt_irrefl _ h1
      · rcases h2 with h2 | ⟨f2, h2⟩
        · rw [f1] at h2
          exact lt_irrefl _ h2
        · rcases h1 with h1 | ⟨g1, h1⟩
          · rcases h2 with h2 | ⟨g2, _⟩
            · exact lt_asymm h1 h2
            · rw [g2] at h1
              exact lt_irrefl _ h1
          · exact h1

theorem lexRowOrder_strict {a b : List CellData}
    (hle : lexRowOrder (fun _ _ => True) a b)
    (hne : (rowKey 0 a, rowKey 2 a, rowKey 6 a) ≠
      (rowKey 0 b, rowKey 2 b, rowKey 6 b)) :
    lexRowOrder (fun _ _ => False) a b := by
  unfold lexRowOrder at hle ⊢
  rcases hle with h | ⟨e1, hle⟩
  · exact Or.inl h
  · refine Or.inr ⟨e1, ?_⟩
    rcases hle with h | ⟨e2, hle⟩
    · exact Or.inl h
    · refine Or.inr ⟨e2, ?_⟩
      rcases hle with h | ⟨e3, _⟩
      · exact Or.inl h
      · exact absurd (by rw [e1, e2, e3]) hne

/-- The three-pass cascade is insensitive to the input order whenever the
sort-key triples of the rows are pairwise distinct. -/
theorem sort3_eq_of_perm (b1 b2 : List (List CellData))
    (hperm : List.Perm b1 b2)
    (hknd : (b1.map (fun row => (rowKey 0 row, rowKey 2 row,
      rowKey 6 row))).Nodup) :
    sortOutput (sortOutput (sortOutput b1 6) 2) 0 =
      sortOutput (sortOutput (sortOutput b2 6) 2) 0 := by
  have hperm1 : List.Perm (sortOutput (sortOutput (sortOutput b1 6) 2) 0)
      b1 := (sortOutput_perm _ 0).trans
      ((sortOutput_perm _ 2).trans (sortOutput_perm _ 6))
  have hperm2 : List.Perm (sortOutput (sortOutput (sortOutput b2 6) 2) 0)
      b2 := (sortOutput_perm _ 0).trans
      ((sortOutput_perm _ 2).trans (sortOutput_perm _ 6))
  have h12 := hperm1.trans (hperm.trans hperm2.symm)
  have hknd2 : (b2.map (fun row => (rowKey 0 row, rowKey 2 row,
      rowKey 6 row))).Nodup :=
    ((hperm.map _).nodup_iff).mp hknd
  have hsp : ∀ (b : List (List CellData)),
      (b.map (fun row => (rowKey 0 row, rowKey 2 row, rowKey 6 row))).Nodup →
      (sortOutput (sortOutput (sortOutput b 6) 2) 0).Pairwise
        (lexRowOrder (fun _ _ => False)) := by
    intro b hnd
    have hlex : (sortOutput (sortOutput (sortOutput b 6) 2) 0).Pairwise
        (lexRowOrder (fun _ _ => True)) :=
      sortOutput_pairwise 0 _ _
        (sortOutput_pairwise 2 _ _
          (sortOutput_pairwise 6 (fun _ _ => True) b (pairwise_trivial b)))
    have hpermb : List.Perm (sortOutput (sortOutput (sortOutput b 6) 2) 0)
        b := (sortOutput_perm _ 0).trans
        ((sortOutput_perm _ 2).trans (sortOutput_perm _ 6))
    have hnd3 : ((sortOutput (sortOutput (sortOutput b 6) 2) 0).map
        (fun row => (rowKey 0 row, rowKey 2 row, rowKey 6 row))).Nodup :=
      ((hpermb.map _).nodup_iff).mpr hnd
    have hnepw := (List.pairwise_map.mp hnd3)
    exact (hlex.and hnepw).imp
      (fun hx => lexRowOrder_strict hx.1 hx.2)
  haveI : IsAntisymm (List CellData) (lexRowOrder (fun _ _ => False)) :=
    ⟨fun a b h1 h2 => (lexRowOrder_false_asymm h1 h2).elim⟩
  exact List.eq_of_perm_of_sorted h12 (hsp b1 hknd) (hsp b2 hknd2)

/-- C9 (counterexample): the Sheet Row Materializer is NOT deterministic for
every grid and metadata: when two distinct accounts display the same
(team, provider, account-ID) triple, the stable sorts preserve the map
iteration order, so two iteration orders of the same grid produce different
sheets (here the two accounts differ in their Date column). -/
theorem materializer_order_counterexample :
    List.Perm [("k1", ([] : List (String × ℚ))), ("k2", [])]
      [("k2", []), ("k1", [])] ∧
    getSheetFromCostCells [("k1", []), ("k2", [])] [] c9am c9md ≠
      getSheetFromCostCells [("k2", []), ("k1", [])] [] c9am c9md := by
  refine ⟨List.Perm.swap _ _ _, ?_⟩
  intro heq
  have hsort2 : ∀ (a b : List CellData) (c : Nat),
      (a.getD c CellData.empty).strVal ≤ (b.getD c CellData.empty).strVal →
      sortOutput [a, b] c = [a, b] := by
    intro a b c h
    unfold sortOutput
    simp only [List.insertionSort, List.orderedInsert]
    rw [if_pos h]
  have hb1 : buildDataRows [("k1", ([] : List (String × ℚ))), ("k2", [])]
      (fixedColumnHeads ++ sortedKeys []) c9am c9md =
      [c9row "k1", c9row "k2"] := rfl
  have hb2 : buildDataRows [("k2", ([] : List (String × ℚ))), ("k1", [])]
      (fixedColumnHeads ++ sortedKeys []) c9am c9md =
      [c9row "k2", c9row "k1"] := rfl
  rw [getSheetFromCostCells_eq, getSheetFromCostCells_eq, hb1, hb2] at heq
  have h6 : ((c9row "k1").getD 6 CellData.empty).strVal =
      ((c9row "k2").getD 6 CellData.empty).strVal := rfl
  have h2 : ((c9row "k1").getD 2 CellData.empty).strVal =
      ((c9row "k2").getD 2 CellData.empty).strVal := rfl
  have h0 : ((c9row "k1").getD 0 CellData.empty).strVal =
      ((c9row "k2").getD 0 CellData.empty).strVal := rfl
  rw [hsort2 (c9row "k1") (c9row "k2") 6 (le_of_eq h6),
    hsort2 (c9row "k1") (c9row "k2") 2 (le_of_eq h2),
    hsort2 (c9row "k1") (c9row "k2") 0 (le_of_eq h0),
    hsort2 (c9row "k2") (c9row "k1") 6 (le_of_eq h6.symm),
    hsort2 (c9row "k2") (c9row "k1") 2 (le_of_eq h2.symm),
    hsort2 (c9row "k2") (c9row "k1") 0 (le_of_eq h0.symm)] at heq
  have hproj := congrArg
    (fun l : List (List CellData) =>
      ((l.getD 1 []).getD 1 CellData.empty)) heq
  have hlit : CellData.str "d1" = CellData.str "d2" := hproj
  simp at hlit

/-- C9 (amended): the Sheet Row Materializer is deterministic — its output
does not depend on the iteration order of the grid map or of the category
set — provided the category set is duplicate-free and no two grid rows
display the same (team, provider, account-ID) sort-key triple (which holds
for directories keyed by canonical account ID). -/
theorem materializer_determinism_spec :
    ∀ (cc1 cc2 : List (String × List (String × ℚ)))
      (set1 set2 : List String) (am : String → AccountMetadata)
      (md : String → ProviderAccountMetadata),
      List.Perm cc1 cc2 → List.Perm set1 set2 → set1.Nodup →
      ((buildDataRows cc1 (fixedColumnHeads ++ sortedKeys set1) am md).map
        (fun row => (rowKey 0 row, rowKey 2 row, rowKey 6 row))).Nodup →
      getSheetFromCostCells cc1 set1 am md =
        getSheetFromCostCells cc2 set2 am md := by
  intro cc1 cc2 set1 set2 am md hcc hset hnd hknd
  haveI : IsTotal String (fun a b : String => a ≤ b) :=
    ⟨fun a b => le_total a b⟩
  haveI : IsTrans String (fun a b : String => a ≤ b) :=
    ⟨fun _ _ _ h1 h2 => le_trans h1 h2⟩
  haveI : IsAntisymm String (fun a b : String => a ≤ b) :=
    ⟨fun a b h1 h2 => le_antisymm h1 h2⟩
  have hsk : sortedKeys set1 = sortedKeys set2 := by
    apply List.eq_of_perm_of_sorted
      ((List.perm_insertionSort _ set1).trans
        (hset.trans (List.perm_insertionSort _ set2).symm))
      (List.sorted_insertionSort _ set1)
      (List.sorted_insertionSort _ set2)
  have hknd2 : ((buildDataRows cc1 (fixedColumnHeads ++ sortedKeys set2)
      am md).map (fun row => (rowKey 0 row, rowKey 2 row,
      rowKey 6 row))).Nodup := by
    rw [← hsk]
    exact hknd
  have hbperm : List.Perm
      (buildDataRows cc1 (fixedColumnHeads ++ sortedKeys set2) am md)
      (buildDataRows cc2 (fixedColumnHeads ++ sortedKeys set2) am md) :=
    hcc.map _
  rw [getSheetFromCostCells_eq, getSheetFromCostCells_eq, hsk,
    sort3_eq_of_perm _ _ hbperm hknd2]

/-- Witness for the amended C9: two accounts with distinct account IDs,
fed in the two possible map iteration orders, produce identical sheets. -/
theorem materializer_determinism_witness :
    getSheetFromCostCells [("a", []), ("b", [])] ["S"]
        (fun aid => ⟨aid, "cat", "p", false, "", "t"⟩)
        (fun _ => ⟨"n", "p", "cc", "d", "pay"⟩) =
      getSheetFromCostCells [("b", []), ("a", [])] ["S"]
        (fun aid => ⟨aid, "cat", "p", false, "", "t"⟩)
        (fun _ => ⟨"n", "p", "cc", "d", "pay"⟩) :=
  materializer_determinism_spec [("a", []), ("b", [])] [("b", []), ("a", [])]
    ["S"] ["S"]
    (fun aid => ⟨aid, "cat", "p", false, "", "t"⟩)
    (fun _ => ⟨"n", "p", "cc", "d", "pay"⟩)
    (List.Perm.swap _ _ _) (List.Perm.refl _) (by decide) (by decide)

end Costpuller
